import Mathlib

/-!
Shallow embedding of the SimpleFS filesystem layer (src/library/fs.c on top of
src/library/disk.c).

Modelling conventions:
* A disk block is a C union; the code only ever writes a block through one view
  and reads it back through the same view, so a `Block` here carries the four
  views (`super`, `inodes`, `pointers`, `data`) as independent fields.
* `disk_read`/`disk_write` succeed exactly when the block index is in range
  (the sanity check in disk.c); host I/O errors are not modelled.
* Uninitialized stack `Block` locals in fs.c (the `Block s`/`Block ib` of
  fs_format, the per-iteration `Block d`, `Block ind`, `Block i_data` of
  fs_write, the per-iteration `Block d` of fs_read) hold indeterminate bytes in
  C; they are passed in as explicit `junk` parameters, one fresh block per loop
  iteration.
* The free-block bitmap is a total function `Nat → Bool` (`true` = free, as in
  the C code).  Operations that would dereference memory outside the bitmap or
  a NULL bitmap (undefined behavior in C) return `none`.
* The unbounded `while` loops of fs_read/fs_write take a fuel argument;
  exhausted fuel (which covers the genuinely infinite loops of the C code)
  yields `none`.
* `size_t` values are represented as `Nat`; the one place where the C code can
  underflow (`size - offset` in fs_read) uses the explicit wrap `sizetSub`.
  No addition performed by the modelled runs approaches 2^64.
* fs_read writes the block into `d.data + offset` (past the end of the stack
  buffer when offset > 0); this is modelled by an unbounded byte array shifted
  by `offset` (`shiftInto`).
-/

namespace SimpleFS

def BLOCK_SIZE : Nat := 4096

def MAGIC_NUMBER : Nat := 0xf0f03410

def INODES_PER_BLOCK : Nat := 128

def POINTERS_PER_INODE : Nat := 5

def POINTERS_PER_BLOCK : Nat := 1024

def USIZE : Nat := 2 ^ 64

/-- Wrap-around subtraction on size_t values (operands assumed < 2^64). -/
def sizetSub (a b : Nat) : Nat := if b ≤ a then a - b else USIZE - (b - a)

structure SuperBlock where
  magic_number : Nat
  blocks : Nat
  inode_blocks : Nat
  inodes : Nat

structure Inode where
  valid : Nat
  size : Nat
  direct : Nat → Nat
  indirect : Nat

structure Block where
  super : SuperBlock
  inodes : Nat → Inode
  pointers : Nat → Nat
  data : Nat → Nat

structure Disk where
  blocks : Nat
  data : Nat → Block

/-- disk.c disk_read: succeeds iff the index passes the sanity check. -/
def disk_read (d : Disk) (b : Nat) : Option Block :=
  if b < d.blocks then some (d.data b) else none

/-- disk.c disk_write: succeeds iff the index passes the sanity check. -/
def disk_write (d : Disk) (b : Nat) (blk : Block) : Option Disk :=
  if b < d.blocks then
    some { d with data := fun i => if i = b then blk else d.data i }
  else none

/-- The FileSystem handle: a NULL `disk` pointer is `none`; `free_blocks` is
`none` when no bitmap has been installed. -/
structure FileSystem where
  disk : Option Disk
  meta_data : SuperBlock
  free_blocks : Option (Nat → Bool)

/-- memcpy of `n` bytes from `src` at `spos` into `dst` at `dpos`. -/
def memcpy (dst : Nat → Nat) (dpos : Nat) (src : Nat → Nat) (spos n : Nat) :
    Nat → Nat :=
  fun i => if dpos ≤ i ∧ i < dpos + n then src (spos + (i - dpos)) else dst i

/-- The effect of `disk_read(disk, blk, d.data + off)` on the (unbounded)
byte array of an uninitialized local block whose junk bytes are `junk`. -/
def shiftInto (junk : Nat → Nat) (off : Nat) (blkdata : Nat → Nat) :
    Nat → Nat :=
  fun i => if off ≤ i ∧ i < off + BLOCK_SIZE then blkdata (i - off) else junk i

/-! ## fs_format -/

/-- The `for(i = 1; i < blocks; i++) disk_write(disk, i, ib.data)` loop of
fs_format, writing the uninitialized block `junk`; `c` iterations remain,
`i` is the current index. -/
def formatLoop (junk : Block) : Nat → Nat → Disk → Bool × Disk
  | 0, _, d => (true, d)
  | c + 1, i, d =>
    match disk_write d i junk with
    | none => (false, d)
    | some d2 => formatLoop junk c (i + 1) d2

/-- fs.c fs_format.  `junkS` and `junkIB` are the indeterminate contents of the
uninitialized stack blocks `s` and `ib`. -/
def fs_format (fs : FileSystem) (disk : Disk) (junkS junkIB : Block) :
    Bool × Disk :=
  match fs.disk with
  | some _ => (false, disk)
  | none =>
    let ib := if disk.blocks % 10 = 0 then disk.blocks / 10
              else disk.blocks / 10 + 1
    let sb : SuperBlock :=
      { magic_number := MAGIC_NUMBER
        blocks := disk.blocks
        inode_blocks := ib
        inodes := ib * INODES_PER_BLOCK }
    match disk_write disk 0 { junkS with super := sb } with
    | none => (false, disk)
    | some d1 => formatLoop junkIB (disk.blocks - 1) 1 d1

/-! ## fs_mount -/

/-- Mark one bitmap entry used (`fs->free_blocks[i] = 0`). -/
def markSet (bm : Nat → Bool) (i : Nat) : Nat → Bool :=
  fun b => if b = i then false else bm b

/-- Mark `f 0, …, f (n-1)` used. -/
def markN (f : Nat → Nat) : Nat → (Nat → Bool) → Nat → Bool
  | 0, bm => bm
  | k + 1, bm => markSet (markN f k bm) (f k)

/-- Processing of one inode slot during the mount scan: mark all five direct
entries (zero or not), then the indirect block and all 1024 pointer entries
(zero or not) of the indirect block read from disk. -/
def mountInode (d : Disk) (ino : Inode) (bm : Nat → Bool) :
    Option (Nat → Bool) :=
  if ino.valid = 1 then
    let bm1 := markN ino.direct POINTERS_PER_INODE bm
    if ino.indirect ≠ 0 then
      match disk_read d ino.indirect with
      | none => none
      | some ind =>
        some (markN ind.pointers POINTERS_PER_BLOCK (markSet bm1 ino.indirect))
    else some bm1
  else some bm

/-- The inner `for(i = 0; i < INODES_PER_BLOCK; i++)` of the mount scan;
`k` slots remain starting at slot `i`. -/
def mountSlots (d : Disk) (blk : Block) : Nat → Nat → (Nat → Bool) →
    Option (Nat → Bool)
  | 0, _, bm => some bm
  | k + 1, i, bm =>
    match mountInode d (blk.inodes i) bm with
    | none => none
    | some bm2 => mountSlots d blk k (i + 1) bm2

/-- The outer `for(q = 1; q <= inode_blocks; q++)` of the mount scan;
`k` inode-table blocks remain starting at block `q`. -/
def mountBlocks (d : Disk) : Nat → Nat → (Nat → Bool) → Option (Nat → Bool)
  | 0, _, bm => some bm
  | k + 1, q, bm =>
    match disk_read d q with
    | none => none
    | some table =>
      match mountSlots d table INODES_PER_BLOCK 0 bm with
      | none => none
      | some bm2 => mountBlocks d k (q + 1) bm2

/-- fs.c fs_mount.  Note that the disk is bound and the superblock copied
*before* the inode-table scan, so scan failures return `false` with the
disk attribute already set and no bitmap installed. -/
def fs_mount (fs : FileSystem) (disk : Disk) : Bool × FileSystem :=
  match disk_read disk 0 with
  | none => (false, fs)
  | some s =>
    if s.super.magic_number ≠ MAGIC_NUMBER then (false, fs)
    else if s.super.blocks ≠ disk.blocks then (false, fs)
    else if s.super.inode_blocks ≠ disk.blocks / 10 ∧
            s.super.inode_blocks ≠ disk.blocks / 10 + 1 then (false, fs)
    else
      match fs.disk with
      | some _ => (false, fs)
      | none =>
        let fs1 : FileSystem :=
          { fs with disk := some disk, meta_data := s.super }
        let bm0 : Nat → Bool :=
          fun b => if b ≤ s.super.inode_blocks then false else true
        match mountBlocks disk s.super.inode_blocks 1 bm0 with
        | none => (false, fs1)
        | some bm => (true, { fs1 with free_blocks := some bm })

/-! ## fs_create -/

/-- Scan `k` inode slots starting at slot `i` for the first with valid == 0. -/
def findFreeSlot (blk : Block) : Nat → Nat → Option Nat
  | 0, _ => none
  | k + 1, i =>
    if (blk.inodes i).valid = 0 then some i else findFreeSlot blk k (i + 1)

/-- The in-memory update fs_create performs on the found slot: valid = 1,
size = 0, direct[0..4] = 0, indirect = 0. -/
def claimSlot (blk : Block) (i : Nat) : Block :=
  { blk with inodes := fun j =>
      if j = i then
        { valid := 1, size := 0
          direct := fun q => if q < POINTERS_PER_INODE then 0
                             else (blk.inodes i).direct q
          indirect := 0 }
      else blk.inodes j }

/-- The block scan of fs_create: `k` inode-table blocks remain starting at
block `q`.  `none` = a disk read failed; `some none` = no free slot;
`some (some (q, i, table))` = slot `i` of block `q` was claimed, with
`table` the updated in-memory copy of that block. -/
def createScan (d : Disk) : Nat → Nat → Option (Option (Nat × Nat × Block))
  | 0, _ => some none
  | k + 1, q =>
    match disk_read d q with
    | none => none
    | some table =>
      match findFreeSlot table INODES_PER_BLOCK 0 with
      | some i => some (some (q, i, claimSlot table i))
      | none => createScan d k (q + 1)

/-- fs.c fs_create.  Note the return value is the slot index `i` within the
containing inode block, not the global inode number. -/
def fs_create (fs : FileSystem) : Int × FileSystem :=
  match fs.disk with
  | none => (-1, fs)
  | some d =>
    match createScan d fs.meta_data.inode_blocks 1 with
    | none => (-1, fs)
    | some none => (-1, fs)
    | some (some (q, i, table)) =>
      match disk_write d q table with
      | none => (-1, fs)
      | some d2 => (Int.ofNat i, { fs with disk := some d2 })

/-! ## fs_remove -/

/-- Mark one bitmap entry free (`fs->free_blocks[i] = 1`). -/
def freeSet (bm : Nat → Bool) (i : Nat) : Nat → Bool :=
  fun b => if b = i then true else bm b

/-- Mark `f 0, …, f (n-1)` free. -/
def freeN (f : Nat → Nat) : Nat → (Nat → Bool) → Nat → Bool
  | 0, bm => bm
  | k + 1, bm => freeSet (freeN f k bm) (f k)

/-- The zeroing fs_remove performs on the slot before writing it back. -/
def zeroSlot (blk : Block) (i : Nat) : Block :=
  { blk with inodes := fun j =>
      if j = i then
        { valid := 0, size := 0
          direct := fun q => if q < POINTERS_PER_INODE then 0
                             else (blk.inodes i).direct q
          indirect := 0 }
      else blk.inodes j }

/-- fs.c fs_remove.  All five direct entries are freed whether or not they are
zero, and all 1024 pointer entries of the indirect block likewise.  A NULL
bitmap dereference is undefined behavior, modelled as `none`. -/
def fs_remove (fs : FileSystem) (inode_number : Nat) :
    Option (Bool × FileSystem) :=
  match fs.disk with
  | none => some (false, fs)
  | some d =>
    match disk_read d (inode_number / INODES_PER_BLOCK + 1) with
    | none => some (false, fs)
    | some b =>
      let i_num := inode_number % INODES_PER_BLOCK
      if (b.inodes i_num).valid = 1 then
        match fs.free_blocks with
        | none => none
        | some bm =>
          let bm1 := freeN (b.inodes i_num).direct POINTERS_PER_INODE bm
          if (b.inodes i_num).indirect ≠ 0 then
            let bm2 := freeSet bm1 (b.inodes i_num).indirect
            match disk_read d (b.inodes i_num).indirect with
            | none => some (false, { fs with free_blocks := some bm2 })
            | some ind =>
              let bm3 := freeN ind.pointers POINTERS_PER_BLOCK bm2
              match disk_write d (inode_number / INODES_PER_BLOCK + 1)
                  (zeroSlot b i_num) with
              | none => some (false, { fs with free_blocks := some bm3 })
              | some d2 =>
                some (true,
                  { fs with disk := some d2, free_blocks := some bm3 })
          else
            match disk_write d (inode_number / INODES_PER_BLOCK + 1)
                (zeroSlot b i_num) with
            | none => some (false, { fs with free_blocks := some bm1 })
            | some d2 =>
              some (true, { fs with disk := some d2, free_blocks := some bm1 })
      else some (false, fs)

/-! ## fs_stat -/

/-- fs.c fs_stat. -/
def fs_stat (fs : FileSystem) (inode_number : Nat) : Int :=
  match fs.disk with
  | none => -1
  | some d =>
    match disk_read d (inode_number / INODES_PER_BLOCK + 1) with
    | none => -1
    | some b =>
      if (b.inodes (inode_number % INODES_PER_BLOCK)).valid ≠ 0 then
        Int.ofNat (b.inodes (inode_number % INODES_PER_BLOCK)).size
      else -1

/-! ## fs_read -/

/-- Loop state of the fs_read while loop.  `iter` indexes the fresh
uninitialized stack block of each direct-branch iteration. -/
structure RSt where
  b_read : Nat
  d_num : Nat
  ind_num : Nat
  out : Nat → Nat
  iter : Nat

/-- The `while(b_read < length)` loop of fs_read.  `ino` is the in-memory copy
of the inode, `buflen` the (already clamped) length, `off` the original byte
offset (never updated by the C code, so `byte_start` is recomputed from it on
every iteration).  Fuel 0 is `none` (covers the infinite loop that arises when
`d_num ≥ 5` and there is no usable indirect slot). -/
def readLoop (d : Disk) (ino : Inode) (buflen off : Nat) (junk : Nat → Block) :
    Nat → RSt → Option (Int × (Nat → Nat))
  | 0, _ => none
  | fuel + 1, st =>
    if st.b_read < buflen then
      if st.d_num < POINTERS_PER_INODE then
        match disk_read d (ino.direct st.d_num) with
        | none => some (-1, st.out)
        | some blk =>
          let dData := shiftInto (junk st.iter).data off blk.data
          let byte_start := off % BLOCK_SIZE
          let read_size := BLOCK_SIZE - byte_start
          let amt := if st.b_read + read_size > buflen then buflen - st.b_read
                     else read_size
          readLoop d ino buflen off junk fuel
            { st with
              b_read := st.b_read + amt
              d_num := st.d_num + 1
              out := memcpy st.out st.b_read dData byte_start amt
              iter := st.iter + 1 }
      else if ino.indirect ≠ 0 then
        if st.ind_num < POINTERS_PER_BLOCK then
          match disk_read d ino.indirect with
          | none => some (-1, st.out)
          | some ind =>
            match disk_read d (ind.pointers st.ind_num) with
            | none => some (-1, st.out)
            | some idata =>
              let byte_start := off % BLOCK_SIZE
              let read_size := BLOCK_SIZE - byte_start
              let amt := if st.b_read + read_size > buflen
                         then buflen - st.b_read else read_size
              readLoop d ino buflen off junk fuel
                { st with
                  b_read := st.b_read + amt
                  ind_num := st.ind_num + 1
                  out := memcpy st.out st.b_read idata.data byte_start amt
                  iter := st.iter + 1 }
        else readLoop d ino buflen off junk fuel st
      else readLoop d ino buflen off junk fuel st
    else some (Int.ofNat st.b_read, st.out)

/-- fs.c fs_read.  `buf0` is the caller's buffer before the call; the returned
function is its contents after.  The length clamp `length = size - offset` is
size_t arithmetic and underflows when `offset > size` (`sizetSub`). -/
def fs_read (fs : FileSystem) (inode_number : Nat) (buf0 : Nat → Nat)
    (length off : Nat) (junk : Nat → Block) (fuel : Nat) :
    Option (Int × (Nat → Nat)) :=
  if length = 0 then some (0, buf0)
  else
    match fs.disk with
    | none => some (-1, buf0)
    | some d =>
      match disk_read d (inode_number / INODES_PER_BLOCK + 1) with
      | none => some (-1, buf0)
      | some b =>
        let ino := b.inodes (inode_number % INODES_PER_BLOCK)
        if ino.valid = 0 then some (-1, buf0)
        else
          let len2 := if length + off > ino.size then sizetSub ino.size off
                      else length
          let d_num := off / BLOCK_SIZE
          readLoop d ino len2 off junk fuel
            { b_read := 0
              d_num := d_num
              ind_num := if d_num > 5 then d_num - 5 else 0
              out := buf0
              iter := 0 }

/-! ## fs_write -/

/-- First free (true) bitmap index, scanning from `i` with `k` indices left.
The C scan `while(free_blocks[index] == 0) index++` runs past the end of the
bitmap when no entry is free - undefined behavior, modelled as `none` by
bounding the scan at the disk size. -/
def findFree (bm : Nat → Bool) : Nat → Nat → Option Nat
  | 0, _ => none
  | k + 1, i => if bm i = false then findFree bm k (i + 1) else some i

/-- Loop state of the fs_write while loop: current disk, bitmap, in-memory
inode-table block `b`, progress counters, and the junk-stream index. -/
structure WSt where
  d : Disk
  bm : Nat → Bool
  b : Block
  b_write : Nat
  d_num : Nat
  ind_num : Nat
  iter : Nat

/-- Overwrite one direct slot of an inode. -/
def setDirect (ino : Inode) (k v : Nat) : Inode :=
  { ino with direct := fun j => if j = k then v else ino.direct j }

/-- Overwrite one inode slot of a block. -/
def setInodeAt (blk : Block) (i : Nat) (ino : Inode) : Block :=
  { blk with inodes := fun j => if j = i then ino else blk.inodes j }

/-- Overwrite one pointer slot of a block. -/
def setPointerAt (blk : Block) (i v : Nat) : Block :=
  { blk with pointers := fun j => if j = i then v else blk.pointers j }

/-- The `while(b_write < length)` loop of fs_write.  `B` is the inode-table
block index, `i_num` the slot, `buf` the source bytes, `length` the (already
clamped) length, `off` the original offset (never updated, so `byte_start` is
recomputed from it every iteration).  `junkD`, `junkInd`, `junkIData` are the
indeterminate contents of the uninitialized per-iteration stack blocks `d`,
`ind` and `i_data`; note the indirect block `ind` is *never read from disk*
before being written back.  The direct branch allocates a fresh block on every
iteration regardless of the current `direct[d_num]`, and sets the inode size
to `b_write` (bytes written so far in this call). -/
def writeLoop (B i_num : Nat) (buf : Nat → Nat) (length off : Nat)
    (junkD junkInd junkIData : Nat → Block) :
    Nat → WSt → Option (Int × Disk × (Nat → Bool))
  | 0, _ => none
  | fuel + 1, st =>
    if st.b_write < length then
      if st.d_num < POINTERS_PER_INODE then
        let byte_start := off % BLOCK_SIZE
        let write_size := BLOCK_SIZE - byte_start
        let amt := if st.b_write + write_size > length then length - st.b_write
                   else write_size
        let dblk := { junkD st.iter with
          data := memcpy (junkD st.iter).data byte_start buf st.b_write amt }
        match findFree st.bm st.d.blocks 0 with
        | none => none
        | some index =>
          match disk_write st.d index dblk with
          | none => some (-1, st.d, st.bm)
          | some d2 =>
            let b2 := setInodeAt st.b i_num
              (setDirect { st.b.inodes i_num with size := st.b_write + amt }
                st.d_num index)
            let bm2 := markSet st.bm index
            match disk_write d2 B b2 with
            | none => some (-1, d2, bm2)
            | some d3 =>
              writeLoop B i_num buf length off junkD junkInd junkIData fuel
                { d := d3, bm := bm2, b := b2
                  b_write := st.b_write + amt
                  d_num := st.d_num + 1, ind_num := st.ind_num
                  iter := st.iter + 1 }
      else
        match
          (if (st.b.inodes i_num).indirect = 0 then
            match findFree st.bm st.d.blocks 0 with
            | none => none
            | some idx =>
              let b2 := setInodeAt st.b i_num
                { st.b.inodes i_num with indirect := idx }
              let bm2 := markSet st.bm idx
              match disk_write st.d B b2 with
              | none => some (Sum.inl (st.d, bm2))
              | some d2 => some (Sum.inr (d2, bm2, b2))
          else some (Sum.inr (st.d, st.bm, st.b)) :
            Option (Sum (Disk × (Nat → Bool)) (Disk × (Nat → Bool) × Block)))
        with
        | none => none
        | some (Sum.inl (d2, bm2)) => some (-1, d2, bm2)
        | some (Sum.inr (d2, bm2, b2)) =>
          if st.ind_num < POINTERS_PER_BLOCK then
            let byte_start := off % BLOCK_SIZE
            let write_size := BLOCK_SIZE - byte_start
            let amt := if st.b_write + write_size > length
                       then length - st.b_write else write_size
            let idata := { junkIData st.iter with
              data := memcpy (junkIData st.iter).data byte_start buf
                st.b_write amt }
            match findFree bm2 d2.blocks 0 with
            | none => none
            | some index2 =>
              match disk_write d2 index2 idata with
              | none => some (-1, d2, bm2)
              | some d3 =>
                let ind2 := setPointerAt (junkInd st.iter) st.ind_num index2
                match disk_write d3 (b2.inodes i_num).indirect ind2 with
                | none => some (-1, d3, bm2)
                | some d4 =>
                  let bm3 := markSet bm2 index2
                  match disk_write d4 B b2 with
                  | none => some (-1, d4, bm3)
                  | some d5 =>
                    writeLoop B i_num buf length off junkD junkInd junkIData
                      fuel
                      { d := d5, bm := bm3, b := b2
                        b_write := st.b_write + amt
                        d_num := st.d_num, ind_num := st.ind_num + 1
                        iter := st.iter + 1 }
          else
            writeLoop B i_num buf length off junkD junkInd junkIData fuel
              { st with d := d2, bm := bm2, b := b2 }
    else some (Int.ofNat st.b_write, st.d, st.bm)

/-- fs.c fs_write.  The length clamp uses the constant
`BLOCK_SIZE * 5 + BLOCK_SIZE * 128` = 544768 and sets `length` itself to that
constant.  The inode's validity is never checked.  A NULL bitmap would be
undefined behavior (`none`). -/
def fs_write (fs : FileSystem) (inode_number : Nat) (buf : Nat → Nat)
    (length off : Nat) (junkD junkInd junkIData : Nat → Block) (fuel : Nat) :
    Option (Int × FileSystem) :=
  if length = 0 then some (0, fs)
  else
    match fs.disk with
    | none => some (-1, fs)
    | some d =>
      match disk_read d (inode_number / INODES_PER_BLOCK + 1) with
      | none => some (-1, fs)
      | some b =>
        match fs.free_blocks with
        | none => none
        | some bm =>
          let len2 := if length + off > BLOCK_SIZE * 5 + BLOCK_SIZE * 128
                      then BLOCK_SIZE * 5 + BLOCK_SIZE * 128 else length
          let d_num := off / BLOCK_SIZE
          match writeLoop (inode_number / INODES_PER_BLOCK + 1)
              (inode_number % INODES_PER_BLOCK) buf len2 off
              junkD junkInd junkIData fuel
              { d := d, bm := bm, b := b
                b_write := 0
                d_num := d_num
                ind_num := if d_num > 5 then d_num - 5 else 0
                iter := 0 } with
          | none => none
          | some (r, d2, bm2) =>
            some (r, { fs with disk := some d2, free_blocks := some bm2 })

/-! ## Concrete states

A 20-block disk (`inode_blocks = 2`, 256 inodes) in the configuration produced
by format + mount + create: inode 0 valid with size 0 and no pointers, bitmap
with blocks 0, 1, 2 used and 3..19 free. -/

def zeroSuper : SuperBlock := ⟨0, 0, 0, 0⟩

def zeroInode : Inode := ⟨0, 0, fun _ => 0, 0⟩

def zeroBlock : Block := ⟨zeroSuper, fun _ => zeroInode, fun _ => 0, fun _ => 0⟩

def super20 : SuperBlock := ⟨MAGIC_NUMBER, 20, 2, 256⟩

/-- A fresh valid inode (what fs_create leaves in the slot). -/
def freshInode : Inode := ⟨1, 0, fun _ => 0, 0⟩

/-- An inode-table block with inode `i` set to `ino` and all others zero. -/
def tableWith (i : Nat) (ino : Inode) : Block :=
  { zeroBlock with inodes := fun j => if j = i then ino else zeroInode }

/-- 20-block disk: superblock, inode 0 valid in table block 1, rest zero. -/
def disk20 : Disk :=
  ⟨20, fun b =>
    if b = 0 then { zeroBlock with super := super20 }
    else if b = 1 then tableWith 0 freshInode
    else zeroBlock⟩

/-- The mounted handle for `disk20`: blocks 0..2 used, 3..19 free. -/
def fs20 : FileSystem :=
  ⟨some disk20, super20, some fun b => decide (2 < b ∧ b < 20)⟩

/-- A constant source buffer. -/
def buf65 : Nat → Nat := fun _ => 65

/-- An all-zero destination buffer. -/
def bufZ : Nat → Nat := fun _ => 0

/-- An all-zero junk stream (one possible content of uninitialized stack
blocks). -/
def junkZ : Nat → Block := fun _ => zeroBlock

/-- A blank 20-block disk. -/
def disk20blank : Disk := ⟨20, fun _ => zeroBlock⟩

/-- A detached FileSystem handle. -/
def fs0 : FileSystem := ⟨none, zeroSuper, none⟩

example : fs_stat fs20 0 = 0 := by rfl

example : fs_stat fs20 1 = -1 := by rfl

/-- C1.  Counterexample to the write/read round-trip as claimed: on the
mounted 20-block filesystem with valid inode 0, writing 10 bytes at offset 10
(offset + length = 20 ≤ 4,222,976, plenty of free blocks) returns 10, but the
subsequent read of 10 bytes at offset 10 returns 0, not 10 - fs_write stores
`bytes_written` (10) rather than `offset + bytes_written` (20) in the inode
size, so the read is clamped to `size - offset = 0`. -/
theorem c1_roundtrip_counterexample :
    (10 : Nat) + 10 ≤ 4222976 ∧
    (fs_write fs20 0 buf65 10 10 junkZ junkZ junkZ 5).map Prod.fst =
      some 10 ∧
    ((fs_write fs20 0 buf65 10 10 junkZ junkZ junkZ 5).bind
      (fun p => fs_read p.2 0 bufZ 10 10 junkZ 5)).map Prod.fst =
      some 0 ∧
    (0 : Int) ≠ 10 :=
  ⟨by norm_num, rfl, rfl, by decide⟩

/-- The disk produced by formatting the blank 20-block disk when the
uninitialized stack block happens to be all zeros. -/
def disk20zf : Disk := (fs_format fs0 disk20blank zeroBlock zeroBlock).2

/-- The handle produced by mounting `disk20zf`. -/
def fs20zm : FileSystem := (fs_mount fs0 disk20zf).2

/-- The handle after `create()` (which claims inode 0) on `fs20zm`. -/
def fs20zc : FileSystem := (fs_create fs20zm).2

/-- The handle after `remove(0)` on `fs20zc`. -/
def fs20zr : FileSystem := ((fs_remove fs20zc 0).getD (false, fs20zc)).2

/-- C2.  The reserved-region invariant fails on the operation sequence
format; mount; create; remove(0); write(0, buf, 1, 0): the created inode has
all five direct pointers zero, so removing it executes
`free_blocks[direct[q]] = 1` for each `q` without a nonzero check, marking
block 0 *free*; the next write's lowest-index-free scan then selects block 0
as a data block and overwrites the superblock (after the write, block 0
holds the data byte 65 and its magic number is the junk value 0). -/
theorem c2_block0_freed_then_selected :
    (fs_format fs0 disk20blank zeroBlock zeroBlock).1 = true ∧
    (fs_mount fs0 disk20zf).1 = true ∧
    (fs_create fs20zm).1 = 0 ∧
    (fs_remove fs20zc 0).map Prod.fst = some true ∧
    fs20zr.free_blocks.map (fun bm => bm 0) = some true ∧
    (fs_write fs20zr 0 buf65 1 0 junkZ junkZ junkZ 5).map
      (fun p => (p.1, p.2.disk.map
        (fun d => ((d.data 0).data 0, (d.data 0).super.magic_number)))) =
      some (1, some (65, 0)) ∧
    (0 : Nat) ≠ MAGIC_NUMBER :=
  ⟨rfl, rfl, rfl, rfl, rfl, rfl, by decide⟩

/-- 20-block disk whose first inode-table block is completely full (all 128
inodes valid) and whose second is empty. -/
def disk20full : Disk :=
  ⟨20, fun b =>
    if b = 0 then { zeroBlock with super := super20 }
    else if b = 1 then { zeroBlock with inodes := fun _ => freshInode }
    else zeroBlock⟩

/-- The mounted handle for `disk20full`. -/
def fs20full : FileSystem :=
  ⟨some disk20full, super20, some fun b => decide (2 < b ∧ b < 20)⟩

/-- C3.  fs_create scans in order and claims slot 0 of inode block 2 (the
first free slot, since block 1 is full), making it valid on disk, but returns
the local slot index 0 instead of the global inode number
`slot + (block-1)*128 = 128`. -/
theorem c3_create_returns_local_slot :
    (fs_create fs20full).1 = 0 ∧
    (fs_create fs20full).2.disk.map
      (fun d => (((d.data 2).inodes 0).valid, ((d.data 1).inodes 5).valid)) =
      some (1, 1) ∧
    (0 : Int) ≠ Int.ofNat (0 + (2 - 1) * 128) :=
  ⟨rfl, rfl, by decide⟩

/-- C4.  The inode size is not a monotonic high-water mark: writing 10 bytes
at offset 4096 to the fresh inode 0 succeeds (returns 10) but leaves
`stat = 10`, the bytes written in this call, instead of
`offset + bytes_written = 4106`. -/
theorem c4_size_not_high_water_mark :
    (fs_write fs20 0 buf65 10 4096 junkZ junkZ junkZ 5).map
      (fun p => (p.1, fs_stat p.2 0)) = some (10, 10) ∧
    (10 : Int) ≠ 4096 + 10 :=
  ⟨rfl, by decide⟩

/-- A possible content of the uninitialized block `ib` that fs_format writes
over the whole disk: every inode slot valid with size 77. -/
def junkIB77 : Block :=
  { zeroBlock with inodes := fun _ => ⟨1, 77, fun _ => 0, 0⟩ }

/-- The disk produced by formatting the blank 20-block disk when the
uninitialized block contains `junkIB77`. -/
def disk20fmt : Disk := (fs_format fs0 disk20blank zeroBlock junkIB77).2

/-- C7.  fs_format writes the *uninitialized* stack block `ib` to blocks
1..blocks-1 instead of zeros: when that block's bytes decode to valid inodes
(valid = 1, size = 77), format succeeds, the following mount succeeds, and
the mounted filesystem reports inode 0 as valid with size 77 - not the zero
valid inodes the claim requires. -/
theorem c7_format_leaves_junk_inodes :
    (fs_format fs0 disk20blank zeroBlock junkIB77).1 = true ∧
    (fs_mount fs0 disk20fmt).1 = true ∧
    fs_stat (fs_mount fs0 disk20fmt).2 0 = 77 ∧
    (77 : Int) ≠ -1 :=
  ⟨rfl, rfl, rfl, by decide⟩

/-! ## C6: divergence of fs_read when offset > size -/

/-- Once the read loop is below the clamped length with no usable indirect
block, it can never terminate: direct iterations that stay strictly below
`buflen` consume the five direct slots, and then the loop body is a no-op. -/
lemma readLoop_no_indirect_diverges (d : Disk) (ino : Inode)
    (buflen off : Nat) (junk : Nat → Block)
    (hind : ino.indirect = 0)
    (hdir : ∀ k, k < POINTERS_PER_INODE → ino.direct k < d.blocks) :
    ∀ fuel st, st.d_num ≤ POINTERS_PER_INODE →
      st.b_read + (POINTERS_PER_INODE - st.d_num) * BLOCK_SIZE < buflen →
      readLoop d ino buflen off junk fuel st = none := by
  intro fuel
  induction fuel with
  | zero => intro st _ _; rfl
  | succ n ih =>
    intro st hd hb
    have hP : POINTERS_PER_INODE = 5 := rfl
    have hB : BLOCK_SIZE = 4096 := rfl
    have hmod : off % BLOCK_SIZE < BLOCK_SIZE :=
      Nat.mod_lt _ (by rw [hB]; omega)
    have hlt : st.b_read < buflen := by omega
    rw [readLoop, if_pos hlt]
    by_cases hcase : st.d_num < POINTERS_PER_INODE
    · rw [if_pos hcase]
      have hnov : ¬ (st.b_read + (BLOCK_SIZE - off % BLOCK_SIZE) > buflen) := by
        simp only [hP] at hcase hd hb
        simp only [hB] at hb hmod ⊢
        omega
      split
      · next heq => exact absurd heq (by simp [disk_read, hdir _ hcase])
      · next blk heq =>
        dsimp only
        rw [if_neg hnov]
        refine ih _ ?_ ?_
        · show st.d_num + 1 ≤ POINTERS_PER_INODE
          simp only [hP] at hcase ⊢
          omega
        · show st.b_read + (BLOCK_SIZE - off % BLOCK_SIZE) +
            (POINTERS_PER_INODE - (st.d_num + 1)) * BLOCK_SIZE < buflen
          simp only [hP] at hcase hd hb ⊢
          simp only [hB] at hb hmod ⊢
          omega
    · rw [if_neg hcase, if_neg (by simp [hind])]
      exact ih st hd hb

/-- C6.  On the mounted 20-block filesystem whose valid inode 0 has size 0,
`read(0, out, 1, 1)` has `offset > size`; the claim requires return value 0,
but the C code computes `length = size - offset` in `size_t`, underflowing to
2^64 - 1, and then loops forever (the five direct iterations cannot reach that
length and the inode has no indirect block): the modelled call returns `none`
(divergence) for every fuel. -/
theorem c6_read_past_size_diverges :
    ∀ fuel, fs_read fs20 0 bufZ 1 1 junkZ fuel = none := by
  intro fuel
  have h0 : fs_read fs20 0 bufZ 1 1 junkZ fuel =
      readLoop disk20 freshInode (sizetSub 0 1) 1 junkZ fuel
        ⟨0, 0, 0, bufZ, 0⟩ := rfl
  rw [h0]
  apply readLoop_no_indirect_diverges
  · rfl
  · intro k _
    show (0 : Nat) < 20
    omega
  · show (0 : Nat) ≤ POINTERS_PER_INODE
    exact Nat.zero_le _
  · show 0 + (POINTERS_PER_INODE - 0) * BLOCK_SIZE < sizetSub 0 1
    decide

/-! ## C5: the write clamp constant -/

/-- Superblock of a 160-block disk: inode_blocks = 16, 2048 inodes. -/
def super160 : SuperBlock := ⟨MAGIC_NUMBER, 160, 16, 2048⟩

/-- 160-block disk with one fresh valid inode. -/
def disk160 : Disk :=
  ⟨160, fun b =>
    if b = 0 then { zeroBlock with super := super160 }
    else if b = 1 then tableWith 0 freshInode
    else zeroBlock⟩

/-- The mounted handle for `disk160`: blocks 0..16 used, 17..159 free. -/
def fs160 : FileSystem :=
  ⟨some disk160, super160, some fun b => decide (16 < b)⟩

set_option maxRecDepth 100000 in
set_option maxHeartbeats 2000000 in
/-- C5.  Counterexample to the claimed 4,222,976-byte clamp: a write of
545,000 bytes at offset 0 (545,000 ≤ 4,222,976, so per the claim it must not
be clamped and must return 545,000) is clamped by the code at
`BLOCK_SIZE * 5 + BLOCK_SIZE * 128` = 544,768 bytes and returns 544,768. -/
theorem c5_clamp_counterexample :
    (545000 : Nat) + 0 ≤ 4222976 ∧
    (fs_write fs160 0 buf65 545000 0 junkZ junkZ junkZ 140).map Prod.fst =
      some 544768 ∧
    (544768 : Int) ≠ 545000 :=
  ⟨by norm_num, rfl, by decide⟩

/-! ## C8: mount error atomicity -/

/-- 20-block disk with a valid superblock whose inode 0 is valid but carries
the out-of-range indirect pointer 50, so the mount scan's indirect read
fails. -/
def disk20bad : Disk :=
  ⟨20, fun b =>
    if b = 0 then { zeroBlock with super := super20 }
    else if b = 1 then tableWith 0 ⟨1, 0, fun _ => 0, 50⟩
    else zeroBlock⟩

/-- C8.  Counterexample to mount error atomicity as claimed: mounting
`disk20bad` from a detached handle fails (the indirect-block read fails
during the inode-table scan), but the handle does *not* remain detached -
fs_mount stores the disk and superblock before the scan, so the failed mount
leaves the disk attribute bound (and no bitmap installed). -/
theorem c8_mount_failure_counterexample :
    (fs_mount fs0 disk20bad).1 = false ∧
    (fs_mount fs0 disk20bad).2.disk = some disk20bad ∧
    (fs_mount fs0 disk20bad).2.free_blocks = none :=
  ⟨rfl, rfl, rfl⟩

/-- C8 amended.  What actually holds, case by case: (i) if the superblock
read fails, mount returns false with the handle unchanged; (ii) if the
superblock is read but the magic-number, block-count, or inode-block-count
check fails, mount returns false with the handle unchanged; (iii) mount on
an already-bound handle returns false with the handle unchanged; (iv) if the
superblock passes every check on a detached handle but a disk read fails
during the inode-table scan (an inode-table block or an indirect block, i.e.
`mountBlocks` returns `none`), mount returns false with the disk attribute
already bound to the new disk and the superblock copied, and with no bitmap
installed (`free_blocks` keeps its previous value). -/
theorem c8_mount_error_atomicity_amended (fs : FileSystem) (disk : Disk) :
    (disk_read disk 0 = none → fs_mount fs disk = (false, fs)) ∧
    (∀ s, disk_read disk 0 = some s →
      (s.super.magic_number ≠ MAGIC_NUMBER ∨
        s.super.blocks ≠ disk.blocks ∨
        (s.super.inode_blocks ≠ disk.blocks / 10 ∧
          s.super.inode_blocks ≠ disk.blocks / 10 + 1)) →
      fs_mount fs disk = (false, fs)) ∧
    (fs.disk ≠ none → fs_mount fs disk = (false, fs)) ∧
    (∀ s, disk_read disk 0 = some s →
      s.super.magic_number = MAGIC_NUMBER →
      s.super.blocks = disk.blocks →
      (s.super.inode_blocks = disk.blocks / 10 ∨
        s.super.inode_blocks = disk.blocks / 10 + 1) →
      fs.disk = none →
      mountBlocks disk s.super.inode_blocks 1
        (fun b => if b ≤ s.super.inode_blocks then false else true) = none →
      fs_mount fs disk =
        (false, { fs with disk := some disk, meta_data := s.super })) := by
  refine ⟨?_, ?_, ?_, ?_⟩
  · intro h0
    unfold fs_mount
    rw [h0]
  · intro s hs hbad
    unfold fs_mount
    rw [hs]
    dsimp only
    by_cases h1 : s.super.magic_number ≠ MAGIC_NUMBER
    · rw [if_pos h1]
    · rw [if_neg h1]
      by_cases h2 : s.super.blocks ≠ disk.blocks
      · rw [if_pos h2]
      · rw [if_neg h2]
        have h3 : s.super.inode_blocks ≠ disk.blocks / 10 ∧
            s.super.inode_blocks ≠ disk.blocks / 10 + 1 := by
          rcases hbad with hb | hb | hb
          · exact absurd hb h1
          · exact absurd hb h2
          · exact hb
        rw [if_pos h3]
  · intro hd
    unfold fs_mount
    cases h0 : disk_read disk 0 with
    | none => rfl
    | some s =>
      dsimp only
      by_cases h1 : s.super.magic_number ≠ MAGIC_NUMBER
      · rw [if_pos h1]
      · rw [if_neg h1]
        by_cases h2 : s.super.blocks ≠ disk.blocks
        · rw [if_pos h2]
        · rw [if_neg h2]
          by_cases h3 : s.super.inode_blocks ≠ disk.blocks / 10 ∧
              s.super.inode_blocks ≠ disk.blocks / 10 + 1
          · rw [if_pos h3]
          · rw [if_neg h3]
            cases hfd : fs.disk with
            | some d0 => rfl
            | none => exact absurd hfd hd
  · intro s hs h1 h2 h3 hdnone hmb
    unfold fs_mount
    rw [hs]
    dsimp only
    rw [if_neg (not_not_intro h1), if_neg (not_not_intro h2),
      if_neg (show ¬ (s.super.inode_blocks ≠ disk.blocks / 10 ∧
          s.super.inode_blocks ≠ disk.blocks / 10 + 1) from by
        rintro ⟨ha, hb⟩
        rcases h3 with h | h
        · exact ha h
        · exact hb h)]
    rw [hdnone]
    dsimp only
    rw [hmb]

/-- A zero-block disk, whose block-0 read fails. -/
def disk0 : Disk := ⟨0, fun _ => zeroBlock⟩

/-- Witness for `c8_mount_error_atomicity_amended`, exercising all four
cases: a failing superblock read (`disk0`), a failing magic check
(`disk20blank`, whose superblock is zero), a double mount (`fs20`), and a
scan-phase read failure (`disk20bad`, whose inode 0 has the out-of-range
indirect pointer 50), which leaves the disk bound with the superblock copied
and no bitmap installed. -/
theorem c8_mount_error_atomicity_amended_witness :
    fs_mount fs0 disk0 = (false, fs0) ∧
    fs_mount fs0 disk20blank = (false, fs0) ∧
    fs_mount fs20 disk20bad = (false, fs20) ∧
    fs_mount fs0 disk20bad =
      (false, { fs0 with disk := some disk20bad, meta_data := super20 }) :=
  ⟨(c8_mount_error_atomicity_amended fs0 disk0).1 rfl,
    (c8_mount_error_atomicity_amended fs0 disk20blank).2.1 zeroBlock rfl
      (Or.inl (by decide)),
    (c8_mount_error_atomicity_amended fs20 disk20bad).2.2.1
      (fun h => Option.noConfusion h),
    (c8_mount_error_atomicity_amended fs0 disk20bad).2.2.2
      (disk20bad.data 0) rfl rfl rfl (Or.inl rfl) rfl rfl⟩

/-! ## C9: bitmap recovery on mount -/

lemma markSet_false_iff (bm : Nat → Bool) (i b : Nat) :
    markSet bm i b = false ↔ b = i ∨ bm b = false := by
  unfold markSet
  by_cases h : b = i <;> simp [h]

lemma markN_false_iff (f : Nat → Nat) (n : Nat) (bm : Nat → Bool) (b : Nat) :
    markN f n bm b = false ↔ (∃ k, k < n ∧ f k = b) ∨ bm b = false := by
  induction n with
  | zero =>
    show bm b = false ↔ _
    constructor
    · exact fun h => Or.inr h
    · rintro (⟨k, hk, _⟩ | h)
      · omega
      · exact h
  | succ m ih =>
    show markSet (markN f m bm) (f m) b = false ↔ _
    rw [markSet_false_iff, ih]
    constructor
    · rintro (h | ⟨k, hk, hfk⟩ | h)
      · exact Or.inl ⟨m, Nat.lt_succ_self m, h.symm⟩
      · exact Or.inl ⟨k, Nat.lt_succ_of_lt hk, hfk⟩
      · exact Or.inr h
    · rintro (⟨k, hk, hfk⟩ | h)
      · rcases Nat.lt_succ_iff_lt_or_eq.mp hk with h' | h'
        · exact Or.inr (Or.inl ⟨k, h', hfk⟩)
        · subst h'
          exact Or.inl hfk.symm
      · exact Or.inr (Or.inr h)

/-- The marks the mount scan places for one valid inode: its five direct
entries (zero or not), its indirect block if nonzero, and all 1024 pointer
entries of the on-disk indirect block (zero or not). -/
def MountMarks (d : Disk) (ino : Inode) (b : Nat) : Prop :=
  (∃ k, k < POINTERS_PER_INODE ∧ ino.direct k = b) ∨
  (ino.indirect ≠ 0 ∧
    (b = ino.indirect ∨
      ∃ j, j < POINTERS_PER_BLOCK ∧ (d.data ino.indirect).pointers j = b))

lemma mountInode_false_iff (d : Disk) (ino : Inode) (bm bm' : Nat → Bool)
    (h : mountInode d ino bm = some bm') (b : Nat) :
    bm' b = false ↔ (ino.valid = 1 ∧ MountMarks d ino b) ∨ bm b = false := by
  unfold mountInode at h
  by_cases hv : ino.valid = 1
  · rw [if_pos hv] at h
    by_cases hi : ino.indirect ≠ 0
    · rw [if_pos hi] at h
      cases hr : disk_read d ino.indirect with
      | none => rw [hr] at h; cases h
      | some ind =>
        rw [hr] at h
        have hind : ind = d.data ino.indirect := by
          unfold disk_read at hr
          by_cases hb2 : ino.indirect < d.blocks
          · rw [if_pos hb2] at hr
            exact (Option.some.inj hr).symm
          · rw [if_neg hb2] at hr
            cases hr
        obtain rfl := Option.some.inj h
        subst hind
        rw [markN_false_iff, markSet_false_iff, markN_false_iff]
        unfold MountMarks
        constructor
        · rintro (hp | hind' | hdir | hbm)
          · exact Or.inl ⟨hv, Or.inr ⟨hi, Or.inr hp⟩⟩
          · exact Or.inl ⟨hv, Or.inr ⟨hi, Or.inl hind'⟩⟩
          · exact Or.inl ⟨hv, Or.inl hdir⟩
          · exact Or.inr hbm
        · rintro (⟨-, hdir | ⟨-, hind' | hp⟩⟩ | hbm)
          · exact Or.inr (Or.inr (Or.inl hdir))
          · exact Or.inr (Or.inl hind')
          · exact Or.inl hp
          · exact Or.inr (Or.inr (Or.inr hbm))
    · rw [if_neg hi] at h
      obtain rfl := Option.some.inj h
      rw [markN_false_iff]
      unfold MountMarks
      constructor
      · rintro (hdir | hbm)
        · exact Or.inl ⟨hv, Or.inl hdir⟩
        · exact Or.inr hbm
      · rintro (⟨-, hdir | ⟨hi', -⟩⟩ | hbm)
        · exact Or.inl hdir
        · exact absurd hi' hi
        · exact Or.inr hbm
  · rw [if_neg hv] at h
    obtain rfl := Option.some.inj h
    constructor
    · exact fun hb => Or.inr hb
    · rintro (⟨hv', -⟩ | hb)
      · exact absurd hv' hv
      · exact hb

lemma mountSlots_false_iff (d : Disk) (blk : Block) :
    ∀ k i bm bm', mountSlots d blk k i bm = some bm' → ∀ b,
      (bm' b = false ↔
        (∃ t, i ≤ t ∧ t < i + k ∧ (blk.inodes t).valid = 1 ∧
          MountMarks d (blk.inodes t) b) ∨ bm b = false) := by
  intro k
  induction k with
  | zero =>
    intro i bm bm' h b
    obtain rfl := Option.some.inj h
    constructor
    · exact fun hb => Or.inr hb
    · rintro (⟨t, h1, h2, -⟩ | hb)
      · omega
      · exact hb
  | succ m ih =>
    intro i bm bm' h b
    unfold mountSlots at h
    cases hmi : mountInode d (blk.inodes i) bm with
    | none => rw [hmi] at h; cases h
    | some bm2 =>
      rw [hmi] at h
      rw [ih (i + 1) bm2 bm' h b, mountInode_false_iff d _ bm bm2 hmi b]
      constructor
      · rintro (⟨t, h1, h2, h3, h4⟩ | ⟨hv, hmk⟩ | hb)
        · exact Or.inl ⟨t, by omega, by omega, h3, h4⟩
        · exact Or.inl ⟨i, le_refl i, by omega, hv, hmk⟩
        · exact Or.inr hb
      · rintro (⟨t, h1, h2, h3, h4⟩ | hb)
        · by_cases ht : t = i
          · subst ht
            exact Or.inr (Or.inl ⟨h3, h4⟩)
          · exact Or.inl ⟨t, by omega, by omega, h3, h4⟩
        · exact Or.inr (Or.inr hb)

lemma mountBlocks_false_iff (d : Disk) :
    ∀ k q bm bm', mountBlocks d k q bm = some bm' → ∀ b,
      (bm' b = false ↔
        (∃ p, q ≤ p ∧ p < q + k ∧ ∃ i, i < INODES_PER_BLOCK ∧
          ((d.data p).inodes i).valid = 1 ∧
          MountMarks d ((d.data p).inodes i) b) ∨ bm b = false) := by
  intro k
  induction k with
  | zero =>
    intro q bm bm' h b
    obtain rfl := Option.some.inj h
    constructor
    · exact fun hb => Or.inr hb
    · rintro (⟨p, h1, h2, -⟩ | hb)
      · omega
      · exact hb
  | succ m ih =>
    intro q bm bm' h b
    unfold mountBlocks at h
    cases hr : disk_read d q with
    | none => rw [hr] at h; cases h
    | some table =>
      rw [hr] at h
      replace h : (match mountSlots d table INODES_PER_BLOCK 0 bm with
        | none => none
        | some bm2 => mountBlocks d m (q + 1) bm2) = some bm' := h
      have htab : table = d.data q := by
        unfold disk_read at hr
        by_cases hq : q < d.blocks
        · rw [if_pos hq] at hr
          exact (Option.some.inj hr).symm
        · rw [if_neg hq] at hr
          cases hr
      cases hms : mountSlots d table INODES_PER_BLOCK 0 bm with
      | none => rw [hms] at h; cases h
      | some bm2 =>
        rw [hms] at h
        rw [ih (q + 1) bm2 bm' h b,
          mountSlots_false_iff d table INODES_PER_BLOCK 0 bm bm2 hms b]
        subst htab
        constructor
        · rintro (⟨p, h1, h2, hrest⟩ | ⟨t, h1, h2, h3, h4⟩ | hb)
          · exact Or.inl ⟨p, by omega, by omega, hrest⟩
          · exact Or.inl ⟨q, le_refl q, by omega, t, by omega, h3, h4⟩
          · exact Or.inr hb
        · rintro (⟨p, h1, h2, i, hi, h3, h4⟩ | hb)
          · by_cases hp : p = q
            · subst hp
              exact Or.inr (Or.inl ⟨i, Nat.zero_le i, by omega, h3, h4⟩)
            · exact Or.inl ⟨p, by omega, by omega, i, hi, h3, h4⟩
          · exact Or.inr (Or.inr hb)

/-- Block `b` is referenced by inode `ino` in the sense of the specification:
by a nonzero direct entry, as the nonzero indirect block, or by a nonzero
entry of the reachable on-disk indirect block. -/
def RefByInode (d : Disk) (ino : Inode) (b : Nat) : Prop :=
  (∃ k, k < POINTERS_PER_INODE ∧ ino.direct k = b ∧ b ≠ 0) ∨
  (ino.indirect = b ∧ b ≠ 0) ∨
  (ino.indirect ≠ 0 ∧
    ∃ j, j < POINTERS_PER_BLOCK ∧
      (d.data ino.indirect).pointers j = b ∧ b ≠ 0)

/-- Block `b` is referenced by some valid inode of the inode table
(blocks 1..ib) of disk `d`. -/
def Referenced (d : Disk) (ib b : Nat) : Prop :=
  ∃ q, 1 ≤ q ∧ q ≤ ib ∧ ∃ i, i < INODES_PER_BLOCK ∧
    ((d.data q).inodes i).valid = 1 ∧
    RefByInode d ((d.data q).inodes i) b

lemma refByInode_mountMarks (d : Disk) (ino : Inode) (b : Nat)
    (h : RefByInode d ino b) : MountMarks d ino b := by
  rcases h with ⟨k, hk, he, -⟩ | ⟨he, hb⟩ | ⟨hi, j, hj, he, -⟩
  · exact Or.inl ⟨k, hk, he⟩
  · exact Or.inr ⟨by rw [he]; exact hb, Or.inl he.symm⟩
  · exact Or.inr ⟨hi, Or.inr ⟨j, hj, he⟩⟩

lemma mountMarks_refByInode (d : Disk) (ino : Inode) (b : Nat) (hb : b ≠ 0)
    (h : MountMarks d ino b) : RefByInode d ino b := by
  rcases h with ⟨k, hk, he⟩ | ⟨hi, he | ⟨j, hj, he⟩⟩
  · exact Or.inl ⟨k, hk, he, hb⟩
  · exact Or.inr (Or.inl ⟨he.symm, hb⟩)
  · exact Or.inr (Or.inr ⟨hi, j, hj, he, hb⟩)

/-- Breakdown of a successful fs_mount. -/
lemma fs_mount_success (fs fs' : FileSystem) (disk : Disk)
    (h : fs_mount fs disk = (true, fs')) :
    fs'.disk = some disk ∧
    fs'.meta_data = (disk.data 0).super ∧
    ∃ bm, fs'.free_blocks = some bm ∧
      mountBlocks disk (disk.data 0).super.inode_blocks 1
        (fun b => if b ≤ (disk.data 0).super.inode_blocks then false
                  else true) = some bm := by
  unfold fs_mount at h
  cases hr : disk_read disk 0 with
  | none =>
    rw [hr] at h
    injection h with h1 _
    cases h1
  | some s =>
    have hs : s = disk.data 0 := by
      unfold disk_read at hr
      by_cases hq : 0 < disk.blocks
      · rw [if_pos hq] at hr
        exact (Option.some.inj hr).symm
      · rw [if_neg hq] at hr
        cases hr
    rw [hr] at h
    dsimp only at h
    by_cases h1 : s.super.magic_number ≠ MAGIC_NUMBER
    · rw [if_pos h1] at h
      injection h with hfalse _
      cases hfalse
    · rw [if_neg h1] at h
      by_cases h2 : s.super.blocks ≠ disk.blocks
      · rw [if_pos h2] at h
        injection h with hfalse _
        cases hfalse
      · rw [if_neg h2] at h
        by_cases h3 : s.super.inode_blocks ≠ disk.blocks / 10 ∧
            s.super.inode_blocks ≠ disk.blocks / 10 + 1
        · rw [if_pos h3] at h
          injection h with hfalse _
          cases hfalse
        · rw [if_neg h3] at h
          cases hd : fs.disk with
          | some d0 =>
            rw [hd] at h
            injection h with hfalse _
            cases hfalse
          | none =>
            rw [hd] at h
            dsimp only at h
            cases hmb : mountBlocks disk s.super.inode_blocks 1
                (fun b => if b ≤ s.super.inode_blocks then false
                          else true) with
            | none =>
              rw [hmb] at h
              injection h with hfalse _
              cases hfalse
            | some bmF =>
              rw [hmb] at h
              injection h with _ h2'
              subst h2'
              subst hs
              exact ⟨rfl, rfl, bmF, rfl, hmb⟩

/-- C9.  Bitmap recovery: immediately after a successful mount, every block
referenced by a valid inode (nonzero direct entry, nonzero indirect pointer,
or nonzero entry of a reachable indirect block) is marked used (`false`) in
the installed bitmap, and every unreferenced block strictly above the inode
table (and below the disk size) is marked free (`true`). -/
theorem c9_bitmap_recovery (fs fs' : FileSystem) (disk : Disk)
    (bm : Nat → Bool) (h : fs_mount fs disk = (true, fs'))
    (hbm : fs'.free_blocks = some bm) (b : Nat) :
    (Referenced disk fs'.meta_data.inode_blocks b → bm b = false) ∧
    (fs'.meta_data.inode_blocks < b → b < disk.blocks →
      ¬ Referenced disk fs'.meta_data.inode_blocks b → bm b = true) := by
  obtain ⟨-, hmeta, bmF, hfb, hmb⟩ := fs_mount_success fs fs' disk h
  rw [hbm] at hfb
  obtain rfl := Option.some.inj hfb
  have hiff := mountBlocks_false_iff disk _ _ _ _ hmb b
  rw [hmeta]
  constructor
  · rintro ⟨q, h1, h2, i, hi, hv, hir⟩
    exact hiff.mpr
      (Or.inl ⟨q, h1, by omega, i, hi, hv,
        refByInode_mountMarks _ _ _ hir⟩)
  · intro hgt hltb href
    cases hb : bm b with
    | true => rfl
    | false =>
      exfalso
      rcases hiff.mp hb with ⟨p, h1, h2, i, hi, hv, hmk⟩ | hb0
      · exact href ⟨p, h1, by omega, i, hi, hv,
          mountMarks_refByInode _ _ _ (by omega) hmk⟩
      · rw [if_neg (by omega)] at hb0
        cases hb0

/-- An inode with one nonzero direct pointer (block 9). -/
def ino9 : Inode := ⟨1, 4096, fun k => if k = 0 then 9 else 0, 0⟩

/-- 20-block disk whose inode 0 references data block 9. -/
def disk20ref : Disk :=
  ⟨20, fun b =>
    if b = 0 then { zeroBlock with super := super20 }
    else if b = 1 then tableWith 0 ino9
    else zeroBlock⟩

/-- The handle produced by mounting `disk20ref`. -/
def fs20refM : FileSystem := (fs_mount fs0 disk20ref).2

/-- The bitmap installed by mounting `disk20ref`. -/
def bm20ref : Nat → Bool := fs20refM.free_blocks.getD (fun _ => false)

/-- Witness for `c9_bitmap_recovery`: after mounting `disk20ref`, the
referenced block 9 is marked used and the unreferenced block 5 is free. -/
theorem c9_bitmap_recovery_witness : bm20ref 9 = false ∧ bm20ref 5 = true := by
  constructor
  · exact (c9_bitmap_recovery fs0 fs20refM disk20ref bm20ref rfl rfl 9).1
      ⟨1, le_refl 1, by decide, 0, by decide, rfl,
        Or.inl ⟨0, by decide, rfl, by decide⟩⟩
  · refine (c9_bitmap_recovery fs0 fs20refM disk20ref bm20ref rfl rfl 5).2
      (by decide) (by decide) ?_
    rintro ⟨q, h1, h2, i, hi, hv, href⟩
    have h2' : q ≤ 2 := h2
    have hq : q = 1 ∨ q = 2 := by omega
    rcases hq with rfl | rfl
    · rcases eq_or_ne i 0 with rfl | hne
      · rcases href with ⟨k, hk, he, -⟩ | ⟨he, -⟩ | ⟨hind, -⟩
        · rcases eq_or_ne k 0 with rfl | hkne
          · exact absurd he (by decide)
          · replace he : (if k = 0 then 9 else 0) = 5 := he
            rw [if_neg hkne] at he
            exact absurd he (by decide)
        · exact absurd he (by decide)
        · exact hind rfl
      · have hz : ((disk20ref.data 1).inodes i).valid = 0 := by
          simp [disk20ref, tableWith, hne, zeroInode]
        rw [hz] at hv
        cases hv
    · have hz : ((disk20ref.data 2).inodes i).valid = 0 := rfl
      rw [hz] at hv
      cases hv

/-! ## C10: frame property of fs_create -/

lemma disk_read_some (d : Disk) (q : Nat) (blk : Block)
    (h : disk_read d q = some blk) : blk = d.data q ∧ q < d.blocks := by
  unfold disk_read at h
  by_cases hq : q < d.blocks
  · rw [if_pos hq] at h
    exact ⟨(Option.some.inj h).symm, hq⟩
  · rw [if_neg hq] at h
    cases h

lemma findFreeSlot_bounds (blk : Block) : ∀ k i j,
    findFreeSlot blk k i = some j →
    i ≤ j ∧ j < i + k ∧ (blk.inodes j).valid = 0 := by
  intro k
  induction k with
  | zero => intro i j h; cases h
  | succ m ih =>
    intro i j h
    unfold findFreeSlot at h
    by_cases hv : (blk.inodes i).valid = 0
    · rw [if_pos hv] at h
      obtain rfl := Option.some.inj h
      exact ⟨le_refl _, by omega, hv⟩
    · rw [if_neg hv] at h
      obtain ⟨h1, h2, h3⟩ := ih (i + 1) j h
      exact ⟨by omega, by omega, h3⟩

lemma createScan_success (d : Disk) : ∀ k q res,
    createScan d k q = some (some res) →
    q ≤ res.1 ∧ res.1 < q + k ∧ res.1 < d.blocks ∧
    res.2.1 < INODES_PER_BLOCK ∧
    res.2.2 = claimSlot (d.data res.1) res.2.1 := by
  intro k
  induction k with
  | zero =>
    intro q res h
    exact Option.noConfusion (Option.some.inj h)
  | succ m ih =>
    intro q res h
    unfold createScan at h
    cases hr : disk_read d q with
    | none => rw [hr] at h; cases h
    | some table =>
      rw [hr] at h
      replace h : (match findFreeSlot table INODES_PER_BLOCK 0 with
        | some i => some (some (q, i, claimSlot table i))
        | none => createScan d m (q + 1)) = some (some res) := h
      obtain ⟨htab, hqlt⟩ := disk_read_some d q table hr
      cases hf : findFreeSlot table INODES_PER_BLOCK 0 with
      | some i =>
        rw [hf] at h
        obtain rfl := Option.some.inj (Option.some.inj h)
        obtain ⟨-, hsl, -⟩ := findFreeSlot_bounds table INODES_PER_BLOCK 0 i hf
        subst htab
        exact ⟨le_refl q, by omega, hqlt, by
          show i < INODES_PER_BLOCK
          omega, rfl⟩
      | none =>
        rw [hf] at h
        obtain ⟨h1, h2, h3, h4, h5⟩ := ih (q + 1) res h
        exact ⟨by omega, by omega, h3, h4, h5⟩

/-- C10.  Frame property of a successful fs_create: only the single claimed
inode slot changes.  The returned (slot) number is below 128, the free-block
bitmap and superblock copy are untouched, only one inode-table block `B`
(with `1 ≤ B ≤ inode_blocks`) is written, every other inode slot of `B` and
all non-inode views of `B` keep their previous on-disk value, and the claimed
slot becomes valid with size 0. -/
theorem c10_create_frame (fs : FileSystem) (d d' : Disk) (m : Nat)
    (fs' : FileSystem) (hd : fs.disk = some d)
    (h : fs_create fs = (Int.ofNat m, fs')) (hd' : fs'.disk = some d') :
    fs'.free_blocks = fs.free_blocks ∧
    fs'.meta_data = fs.meta_data ∧
    m < INODES_PER_BLOCK ∧
    ∃ B, 1 ≤ B ∧ B ≤ fs.meta_data.inode_blocks ∧ B < d.blocks ∧
      d'.blocks = d.blocks ∧
      (∀ c, c ≠ B → d'.data c = d.data c) ∧
      (∀ j, j ≠ m → (d'.data B).inodes j = (d.data B).inodes j) ∧
      (d'.data B).super = (d.data B).super ∧
      (d'.data B).pointers = (d.data B).pointers ∧
      (d'.data B).data = (d.data B).data ∧
      ((d'.data B).inodes m).valid = 1 ∧
      ((d'.data B).inodes m).size = 0 := by
  unfold fs_create at h
  rw [hd] at h
  replace h : (match createScan d fs.meta_data.inode_blocks 1 with
    | none => (-1, fs)
    | some none => (-1, fs)
    | some (some (q, i, table)) =>
      match disk_write d q table with
      | none => (-1, fs)
      | some d2 => (Int.ofNat i, { fs with disk := some d2 })) =
      (Int.ofNat m, fs') := h
  cases hsc : createScan d fs.meta_data.inode_blocks 1 with
  | none =>
    rw [hsc] at h
    injection h with h1 _
    exfalso
    rw [Int.ofNat_eq_coe] at h1
    omega
  | some o =>
    cases o with
    | none =>
      rw [hsc] at h
      injection h with h1 _
      exfalso
      rw [Int.ofNat_eq_coe] at h1
      omega
    | some res =>
      obtain ⟨q, i, table⟩ := res
      rw [hsc] at h
      replace h : (match disk_write d q table with
        | none => (-1, fs)
        | some d2 => (Int.ofNat i, { fs with disk := some d2 })) =
          (Int.ofNat m, fs') := h
      cases hw : disk_write d q table with
      | none =>
        rw [hw] at h
        injection h with h1 _
        exfalso
        rw [Int.ofNat_eq_coe] at h1
        omega
      | some d2 =>
        rw [hw] at h
        injection h with h1 h2
        have him : i = m := Int.ofNat.inj h1
        subst him
        subst h2
        obtain rfl := Option.some.inj hd'
        obtain ⟨hq1, hq2, hqlt, hip, htab⟩ :=
          createScan_success d fs.meta_data.inode_blocks 1 (q, i, table) hsc
        dsimp only at hq1 hq2 hqlt hip htab
        have hd2 : d2 = { d with data := fun c =>
            if c = q then table else d.data c } := by
          unfold disk_write at hw
          rw [if_pos hqlt] at hw
          exact (Option.some.inj hw).symm
        have hdne : ∀ c, c ≠ q → d2.data c = d.data c := by
          intro c hc
          rw [hd2]
          exact if_neg hc
        have hdq : d2.data q = table := by
          rw [hd2]
          exact if_pos rfl
        have hblocks : d2.blocks = d.blocks := by rw [hd2]
        have hclaim : ∀ j, j ≠ i →
            (claimSlot (d.data q) i).inodes j = (d.data q).inodes j := by
          intro j hj
          exact if_neg hj
        have hvalid : (claimSlot (d.data q) i).inodes i =
            { valid := 1, size := 0
              direct := fun k => if k < POINTERS_PER_INODE then 0
                                 else ((d.data q).inodes i).direct k
              indirect := 0 } := if_pos rfl
        refine ⟨rfl, rfl, hip, q, hq1, by omega, hqlt,
          hblocks, hdne, ?_, ?_, ?_, ?_, ?_, ?_⟩
        · intro j hj
          rw [hdq, htab]
          exact hclaim j hj
        · rw [hdq, htab]; rfl
        · rw [hdq, htab]; rfl
        · rw [hdq, htab]; rfl
        · rw [hdq, htab]
          simp only at hvalid ⊢
          rw [hvalid]
        · rw [hdq, htab]
          simp only at hvalid ⊢
          rw [hvalid]

lemma disk_write_some (d : Disk) (q : Nat) (blk : Block) (d2 : Disk)
    (h : disk_write d q blk = some d2) :
    d2.blocks = d.blocks ∧ d2.data q = blk ∧
    ∀ c, c ≠ q → d2.data c = d.data c := by
  unfold disk_write at h
  by_cases hq : q < d.blocks
  · rw [if_pos hq] at h
    obtain rfl := Option.some.inj h
    exact ⟨rfl, if_pos rfl, fun c hc => if_neg hc⟩
  · rw [if_neg hq] at h
    cases h

lemma neg_one_ne_intOfNat (r : Nat) : (-1 : Int) ≠ Int.ofNat r := by
  rw [Int.ofNat_eq_coe]
  omega

/-- The handle after creating a second inode on `fs20`. -/
def fs20c : FileSystem := (fs_create fs20).2

/-- The disk after creating a second inode on `fs20`. -/
def disk20c : Disk := fs20c.disk.getD disk20

/-- Witness for `c10_create_frame`: creating on `fs20` claims slot 1 of
inode block 1 and changes nothing else. -/
theorem c10_create_frame_witness :
    fs20c.free_blocks = fs20.free_blocks ∧
    fs20c.meta_data = fs20.meta_data ∧
    1 < INODES_PER_BLOCK ∧
    ∃ B, 1 ≤ B ∧ B ≤ fs20.meta_data.inode_blocks ∧ B < disk20.blocks ∧
      disk20c.blocks = disk20.blocks ∧
      (∀ c, c ≠ B → disk20c.data c = disk20.data c) ∧
      (∀ j, j ≠ 1 → (disk20c.data B).inodes j = (disk20.data B).inodes j) ∧
      (disk20c.data B).super = (disk20.data B).super ∧
      (disk20c.data B).pointers = (disk20.data B).pointers ∧
      (disk20c.data B).data = (disk20.data B).data ∧
      ((disk20c.data B).inodes 1).valid = 1 ∧
      ((disk20c.data B).inodes 1).size = 0 :=
  c10_create_frame fs20 disk20 disk20c 1 fs20c rfl rfl rfl

/-! ## C5 amended: what the write clamp actually guarantees -/

/-- Invariant of the fs_write loop: a non-error result is at most the
(already clamped) length, and the inode's on-disk size is either its original
value or at most that length.  Uses the fact that every loop iteration's last
disk write is the inode-table block `B` with the in-memory copy `b`. -/
lemma writeLoop_bounds (B i_num : Nat) (buf : Nat → Nat) (length off : Nat)
    (jD jI jID : Nat → Block) (old : Nat) :
    ∀ fuel st r d2 bm2,
      writeLoop B i_num buf length off jD jI jID fuel st =
        some (Int.ofNat r, d2, bm2) →
      st.b_write ≤ length →
      ((st.b.inodes i_num).size = old ∨ (st.b.inodes i_num).size ≤ length) →
      st.d.data B = st.b →
      r ≤ length ∧
      (((d2.data B).inodes i_num).size = old ∨
        ((d2.data B).inodes i_num).size ≤ length) := by
  intro fuel
  induction fuel with
  | zero => intro st r d2 bm2 h _ _ _; cases h
  | succ n ih =>
    intro st r d2 bm2 h hble hinv hdb
    rw [writeLoop] at h
    by_cases h1 : st.b_write < length
    · rw [if_pos h1] at h
      by_cases h2 : st.d_num < POINTERS_PER_INODE
      · rw [if_pos h2] at h
        dsimp only at h
        split at h
        · cases h
        · next index hff =>
          split at h
          · next hdw =>
            obtain ⟨e1, -⟩ := Prod.mk.injEq .. ▸ Option.some.inj h
            exact absurd e1 (neg_one_ne_intOfNat r)
          · next d3 hdw =>
            split at h
            · next hdw2 =>
              obtain ⟨e1, -⟩ := Prod.mk.injEq .. ▸ Option.some.inj h
              exact absurd e1 (neg_one_ne_intOfNat r)
            · next d4 hdw2 =>
              refine ih _ r d2 bm2 h ?_ ?_ ?_
              · show st.b_write +
                  (if st.b_write + (BLOCK_SIZE - off % BLOCK_SIZE) > length
                   then length - st.b_write
                   else BLOCK_SIZE - off % BLOCK_SIZE) ≤ length
                split <;> omega
              · right
                show ((setInodeAt st.b i_num
                  (setDirect { st.b.inodes i_num with size := st.b_write +
                    (if st.b_write + (BLOCK_SIZE - off % BLOCK_SIZE) > length
                     then length - st.b_write
                     else BLOCK_SIZE - off % BLOCK_SIZE) }
                    st.d_num index)).inodes i_num).size ≤ length
                rw [show (setInodeAt st.b i_num
                  (setDirect { st.b.inodes i_num with size := st.b_write +
                    (if st.b_write + (BLOCK_SIZE - off % BLOCK_SIZE) > length
                     then length - st.b_write
                     else BLOCK_SIZE - off % BLOCK_SIZE) }
                    st.d_num index)).inodes i_num =
                  setDirect { st.b.inodes i_num with size := st.b_write +
                    (if st.b_write + (BLOCK_SIZE - off % BLOCK_SIZE) > length
                     then length - st.b_write
                     else BLOCK_SIZE - off % BLOCK_SIZE) }
                    st.d_num index from if_pos rfl]
                show st.b_write +
                  (if st.b_write + (BLOCK_SIZE - off % BLOCK_SIZE) > length
                   then length - st.b_write
                   else BLOCK_SIZE - off % BLOCK_SIZE) ≤ length
                split <;> omega
              · exact (disk_write_some _ _ _ _ hdw2).2.1
      · rw [if_neg h2] at h
        dsimp only at h
        split at h
        · cases h
        · next hpre =>
          obtain ⟨e1, -⟩ := Prod.mk.injEq .. ▸ Option.some.inj h
          exact absurd e1 (neg_one_ne_intOfNat r)
        · next d3 bm3 b3 hpre =>
          have hb3 : (b3.inodes i_num).size = (st.b.inodes i_num).size ∧
              d3.data B = b3 := by
            split at hpre
            · split at hpre
              · cases hpre
              · next idx hff =>
                split at hpre
                · cases hpre
                · next d5 hdw5 =>
                  have e' := Sum.inr.inj (Option.some.inj hpre)
                  have e1 := congrArg Prod.fst e'
                  have e2 := congrArg (fun p => p.2.1) e'
                  have e3 := congrArg (fun p => p.2.2) e'
                  dsimp only at e1 e2 e3
                  subst e1
                  subst e2
                  subst e3
                  constructor
                  · show ((setInodeAt st.b i_num
                      { st.b.inodes i_num with indirect := idx }).inodes
                        i_num).size = (st.b.inodes i_num).size
                    rw [show (setInodeAt st.b i_num
                      { st.b.inodes i_num with indirect := idx }).inodes
                        i_num =
                      { st.b.inodes i_num with indirect := idx }
                      from if_pos rfl]
                  · exact (disk_write_some _ _ _ _ hdw5).2.1
            · have e' := Sum.inr.inj (Option.some.inj hpre)
              have e1 := congrArg Prod.fst e'
              have e2 := congrArg (fun p => p.2.1) e'
              have e3 := congrArg (fun p => p.2.2) e'
              dsimp only at e1 e2 e3
              subst e1
              subst e2
              subst e3
              exact ⟨rfl, hdb⟩
          by_cases h3 : st.ind_num < POINTERS_PER_BLOCK
          · rw [if_pos h3] at h
            split at h
            · cases h
            · next index2 hff2 =>
              split at h
              · next hdw6 =>
                obtain ⟨e1, -⟩ := Prod.mk.injEq .. ▸ Option.some.inj h
                exact absurd e1 (neg_one_ne_intOfNat r)
              · next d6 hdw6 =>
                split at h
                · next hdw7 =>
                  obtain ⟨e1, -⟩ := Prod.mk.injEq .. ▸ Option.some.inj h
                  exact absurd e1 (neg_one_ne_intOfNat r)
                · next d7 hdw7 =>
                  split at h
                  · next hdw8 =>
                    obtain ⟨e1, -⟩ := Prod.mk.injEq .. ▸ Option.some.inj h
                    exact absurd e1 (neg_one_ne_intOfNat r)
                  · next d8 hdw8 =>
                    refine ih _ r d2 bm2 h ?_ ?_ ?_
                    · show st.b_write +
                        (if st.b_write + (BLOCK_SIZE - off % BLOCK_SIZE) >
                            length
                         then length - st.b_write
                         else BLOCK_SIZE - off % BLOCK_SIZE) ≤ length
                      split <;> omega
                    · show (b3.inodes i_num).size = old ∨
                        (b3.inodes i_num).size ≤ length
                      rw [hb3.1]
                      exact hinv
                    · exact (disk_write_some _ _ _ _ hdw8).2.1
          · rw [if_neg h3] at h
            refine ih _ r d2 bm2 h hble ?_ ?_
            · show (b3.inodes i_num).size = old ∨
                (b3.inodes i_num).size ≤ length
              rw [hb3.1]
              exact hinv
            · exact hb3.2
    · rw [if_neg h1] at h
      have e' := Option.some.inj h
      have e1 := congrArg Prod.fst e'
      have e2 := congrArg (fun p => p.2.1) e'
      have e3 := congrArg (fun p => p.2.2) e'
      dsimp only at e1 e2 e3
      subst e2
      subst e3
      have hr : r = st.b_write := by
        have := Int.ofNat.inj e1
        omega
      subst hr
      rw [hdb]
      exact ⟨hble, hinv⟩

/-- C5 amended.  fs_write clamps the request length to
`BLOCK_SIZE * 5 + BLOCK_SIZE * 128` = 544,768 bytes (not 4,222,976, and it
sets `length` itself to the constant whenever `offset + length` exceeds it):
consequently any non-error write reports at most 544,768 bytes, and the
written inode's on-disk size afterwards is at most the maximum of its old
size and 544,768. -/
theorem c5_write_clamp_amended (fs : FileSystem) (n : Nat) (buf : Nat → Nat)
    (length off : Nat) (jD jI jID : Nat → Block) (fuel : Nat)
    (r : Nat) (fs' : FileSystem) (d : Disk) (hd : fs.disk = some d)
    (h : fs_write fs n buf length off jD jI jID fuel =
      some (Int.ofNat r, fs')) :
    r ≤ BLOCK_SIZE * 5 + BLOCK_SIZE * 128 ∧
    ∀ d', fs'.disk = some d' →
      ((d'.data (n / INODES_PER_BLOCK + 1)).inodes
          (n % INODES_PER_BLOCK)).size ≤
        max ((d.data (n / INODES_PER_BLOCK + 1)).inodes
          (n % INODES_PER_BLOCK)).size
          (BLOCK_SIZE * 5 + BLOCK_SIZE * 128) := by
  unfold fs_write at h
  by_cases h0 : length = 0
  · rw [if_pos h0] at h
    have e' := Option.some.inj h
    have e1 := congrArg Prod.fst e'
    have e2 := congrArg Prod.snd e'
    dsimp only at e1 e2
    subst e2
    have hr : r = 0 := by
      have h' : (0 : Int) = Int.ofNat r := e1
      rw [Int.ofNat_eq_coe] at h'
      omega
    subst hr
    refine ⟨Nat.zero_le _, ?_⟩
    intro d' hd'
    rw [hd] at hd'
    obtain rfl := Option.some.inj hd'
    exact le_max_left _ _
  · rw [if_neg h0, hd] at h
    dsimp only at h
    cases hrd : disk_read d (n / INODES_PER_BLOCK + 1) with
    | none =>
      rw [hrd] at h
      have e1 := congrArg Prod.fst (Option.some.inj h)
      dsimp only at e1
      exact absurd e1 (neg_one_ne_intOfNat r)
    | some b =>
      rw [hrd] at h
      dsimp only at h
      cases hfb : fs.free_blocks with
      | none => rw [hfb] at h; cases h
      | some bm =>
        rw [hfb] at h
        dsimp only at h
        obtain ⟨hbd, -⟩ := disk_read_some d _ b hrd
        have hlen2 : (if length + off > BLOCK_SIZE * 5 + BLOCK_SIZE * 128
            then BLOCK_SIZE * 5 + BLOCK_SIZE * 128 else length) ≤
            BLOCK_SIZE * 5 + BLOCK_SIZE * 128 := by
          split
          · exact le_refl _
          · omega
        split at h
        · cases h
        · next r' d2 bm2 heq =>
          have e' := Option.some.inj h
          have e1 := congrArg Prod.fst e'
          have e2 := congrArg Prod.snd e'
          dsimp only at e1 e2
          subst e1
          subst e2
          obtain ⟨hr, hsz⟩ := writeLoop_bounds (n / INODES_PER_BLOCK + 1)
            (n % INODES_PER_BLOCK) buf _ off jD jI jID
            ((d.data (n / INODES_PER_BLOCK + 1)).inodes
              (n % INODES_PER_BLOCK)).size
            fuel _ r d2 bm2 heq (Nat.zero_le _)
            (Or.inl (by rw [hbd])) (by rw [hbd])
          refine ⟨le_trans hr hlen2, ?_⟩
          intro d' hd'
          obtain rfl := Option.some.inj hd'
          rcases hsz with hsz | hsz
          · rw [hsz]
            exact le_max_left _ _
          · exact le_trans (le_trans hsz hlen2) (le_max_right _ _)

/-- The handle after the small write used as witness input. -/
def fs20w : FileSystem :=
  ((fs_write fs20 0 buf65 10 4096 junkZ junkZ junkZ 5).getD (0, fs20)).2

/-- Witness for `c5_write_clamp_amended`: the 10-byte write at offset 4096 on
`fs20` succeeds, reports at most 544,768 bytes, and leaves inode 0's size
within the bound. -/
theorem c5_write_clamp_amended_witness :
    10 ≤ BLOCK_SIZE * 5 + BLOCK_SIZE * 128 ∧
    ∀ d', fs20w.disk = some d' →
      ((d'.data (0 / INODES_PER_BLOCK + 1)).inodes
          (0 % INODES_PER_BLOCK)).size ≤
        max ((disk20.data (0 / INODES_PER_BLOCK + 1)).inodes
          (0 % INODES_PER_BLOCK)).size
          (BLOCK_SIZE * 5 + BLOCK_SIZE * 128) :=
  c5_write_clamp_amended fs20 0 buf65 10 4096 junkZ junkZ junkZ 5 10 fs20w
    disk20 rfl rfl

/-! ## C1 amended: the round-trip that does hold (offset 0, direct range) -/

/-- Number of free bitmap entries below `bound`. -/
def freeCount (bm : Nat → Bool) (bound : Nat) : Nat :=
  ((Finset.range bound).filter (fun i => bm i = true)).card

lemma freeCount_pos_exists (bm : Nat → Bool) (bound : Nat)
    (h : 1 ≤ freeCount bm bound) : ∃ j, j < bound ∧ bm j = true := by
  obtain ⟨j, hj⟩ := Finset.card_pos.mp h
  rw [Finset.mem_filter, Finset.mem_range] at hj
  exact ⟨j, hj.1, hj.2⟩

lemma freeCount_markSet (bm : Nat → Bool) (bound idx : Nat)
    (hidx : idx < bound) (hfree : bm idx = true) :
    freeCount (markSet bm idx) bound + 1 = freeCount bm bound := by
  unfold freeCount
  have hset : (Finset.range bound).filter (fun i => markSet bm idx i = true) =
      ((Finset.range bound).filter (fun i => bm i = true)).erase idx := by
    ext i
    rw [Finset.mem_erase, Finset.mem_filter, Finset.mem_filter,
      Finset.mem_range]
    unfold markSet
    by_cases hi : i = idx
    · simp [hi]
    · simp [hi]
  rw [hset]
  exact Finset.card_erase_add_one
    (Finset.mem_filter.mpr ⟨Finset.mem_range.mpr hidx, hfree⟩)

lemma findFree_some (bm : Nat → Bool) : ∀ k i,
    (∃ j, i ≤ j ∧ j < i + k ∧ bm j = true) →
    ∃ idx, findFree bm k i = some idx ∧ bm idx = true ∧
      i ≤ idx ∧ idx < i + k := by
  intro k
  induction k with
  | zero =>
    rintro i ⟨j, h1, h2, -⟩
    omega
  | succ m ih =>
    rintro i ⟨j, h1, h2, h3⟩
    by_cases hi : bm i = false
    · have hne : j ≠ i := fun he => by rw [he, hi] at h3; cases h3
      obtain ⟨idx, he, hf, hlo, hhi⟩ := ih (i + 1) ⟨j, by omega, by omega, h3⟩
      refine ⟨idx, ?_, hf, by omega, by omega⟩
      unfold findFree
      rw [if_pos hi]
      exact he
    · refine ⟨i, ?_, ?_, le_refl i, by omega⟩
      · unfold findFree
        rw [if_neg hi]
      · cases hb : bm i with
        | true => rfl
        | false => exact absurd hb hi

lemma disk_write_succeeds (d : Disk) (q : Nat) (blk : Block)
    (hq : q < d.blocks) :
    disk_write d q blk =
      some { d with data := fun c => if c = q then blk else d.data c } := by
  unfold disk_write
  rw [if_pos hq]

lemma disk_read_succeeds (d : Disk) (q : Nat) (hq : q < d.blocks) :
    disk_read d q = some (d.data q) := by
  unfold disk_read
  rw [if_pos hq]

lemma setInodeAt_self (blk : Block) (i : Nat) (ino : Inode) :
    (setInodeAt blk i ino).inodes i = ino := if_pos rfl

lemma setDirect_valid (ino : Inode) (k v : Nat) :
    (setDirect ino k v).valid = ino.valid := rfl

lemma setDirect_size (ino : Inode) (k v : Nat) :
    (setDirect ino k v).size = ino.size := rfl

lemma setDirect_direct (ino : Inode) (k v j : Nat) :
    (setDirect ino k v).direct j = if j = k then v else ino.direct j := rfl

/-- Run of the fs_write loop entirely in the direct range at offset 0: with a
sound bitmap (free blocks are in range and distinct from the inode-table
block `B`) and enough free blocks, the loop returns `length` and produces a
disk whose inode has size `length`, unchanged validity, and direct blocks
holding `buf`.  (4096 = BLOCK_SIZE and 5 = POINTERS_PER_INODE.) -/
lemma writeLoop_run_direct (B i_num : Nat) (buf : Nat → Nat) (length : Nat)
    (jD jI jID : Nat → Block)
    (hpos : 0 < length) (hlen : length ≤ 4096 * 5) :
    ∀ fuel st,
      5 - st.d_num + 1 ≤ fuel →
      st.b_write ≤ length →
      (st.b_write < length → st.b_write = 4096 * st.d_num) →
      st.d_num ≤ 5 →
      st.d.data B = st.b →
      B < st.d.blocks →
      (∀ i, st.bm i = true → i ≠ B ∧ i < st.d.blocks) →
      5 - st.d_num ≤ freeCount st.bm st.d.blocks →
      (0 < st.b_write → (st.b.inodes i_num).size = st.b_write) →
      (∀ j, 4096 * j < st.b_write →
        (st.b.inodes i_num).direct j < st.d.blocks ∧
        (st.b.inodes i_num).direct j ≠ B ∧
        st.bm ((st.b.inodes i_num).direct j) = false ∧
        ∀ i, i < 4096 → 4096 * j + i < st.b_write →
          (st.d.data ((st.b.inodes i_num).direct j)).data i =
            buf (4096 * j + i)) →
      ∃ d2 bm2,
        writeLoop B i_num buf length 0 jD jI jID fuel st =
          some (Int.ofNat length, d2, bm2) ∧
        d2.blocks = st.d.blocks ∧
        ((d2.data B).inodes i_num).valid = (st.b.inodes i_num).valid ∧
        ((d2.data B).inodes i_num).size = length ∧
        ∀ j, 4096 * j < length →
          ((d2.data B).inodes i_num).direct j < d2.blocks ∧
          ∀ i, i < 4096 → 4096 * j + i < length →
            (d2.data (((d2.data B).inodes i_num).direct j)).data i =
              buf (4096 * j + i) := by
  intro fuel
  induction fuel with
  | zero =>
    intro st hfuel
    exact absurd hfuel (by omega)
  | succ n ih =>
    intro st hfuel hble hbeq htle hdb hBlt hsafe hfree hsize hcontent
    by_cases hbl : st.b_write < length
    · have hbeq' := hbeq hbl
      have ht : st.d_num < 5 := by omega
      have hfc1 : 1 ≤ freeCount st.bm st.d.blocks := by omega
      obtain ⟨j0, hj0b, hj0f⟩ := freeCount_pos_exists _ _ hfc1
      obtain ⟨idx, hff, hidxf, -, hidxb⟩ :=
        findFree_some st.bm st.d.blocks 0 ⟨j0, Nat.zero_le _, by omega, hj0f⟩
      have hidxlt : idx < st.d.blocks := by omega
      obtain ⟨hidxB, -⟩ := hsafe idx hidxf
      rw [writeLoop, if_pos hbl, if_pos (show st.d_num < POINTERS_PER_INODE
        from ht)]
      dsimp only
      simp only [Nat.zero_mod, Nat.sub_zero]
      rw [hff]
      dsimp only
      unfold disk_write
      rw [if_pos hidxlt]
      dsimp only
      rw [if_pos hBlt]
      dsimp only
      generalize hamt : (if st.b_write + (BLOCK_SIZE : Nat) > length
        then length - st.b_write else (BLOCK_SIZE : Nat)) = amt
      have hamtp : 0 < amt ∧ st.b_write + amt ≤ length ∧ amt ≤ 4096 ∧
          (st.b_write + amt = length ∨ amt = 4096) := by
        have hBS : (BLOCK_SIZE : Nat) = 4096 := rfl
        rw [hBS] at hamt
        by_cases hc : st.b_write + 4096 > length
        · rw [if_pos hc] at hamt
          omega
        · rw [if_neg hc] at hamt
          omega
      obtain ⟨hamt1, hamt2, hamt3, hamt4⟩ := hamtp
      obtain ⟨d2, bm2, heq, hblocks, hvalid2, hsize2, hcont2⟩ :=
        ih { d := { blocks := st.d.blocks
                    data := fun c => if c = B
                      then setInodeAt st.b i_num
                        (setDirect { st.b.inodes i_num with
                          size := st.b_write + amt } st.d_num idx)
                      else if c = idx
                        then { jD st.iter with
                          data := memcpy (jD st.iter).data 0 buf
                            st.b_write amt }
                        else st.d.data c }
             bm := markSet st.bm idx
             b := setInodeAt st.b i_num
               (setDirect { st.b.inodes i_num with
                 size := st.b_write + amt } st.d_num idx)
             b_write := st.b_write + amt
             d_num := st.d_num + 1
             ind_num := st.ind_num
             iter := st.iter + 1 }
          (by dsimp only; omega)
          (by dsimp only; omega)
          (by dsimp only
              intro hlt
              rcases hamt4 with he | he
              · omega
              · omega)
          (by dsimp only; omega)
          (by dsimp only; rw [if_pos rfl])
          (by dsimp only; exact hBlt)
          (by dsimp only
              intro i hi
              unfold markSet at hi
              by_cases hii : i = idx
              · rw [if_pos hii] at hi
                cases hi
              · rw [if_neg hii] at hi
                exact hsafe i hi)
          (by dsimp only
              have hmk := freeCount_markSet st.bm st.d.blocks idx hidxlt hidxf
              omega)
          (by dsimp only
              intro hw
              rw [setInodeAt_self, setDirect_size])
          (by dsimp only
              intro j hj
              rw [setInodeAt_self, setDirect_direct]
              by_cases hjt : j = st.d_num
              · rw [if_pos hjt]
                refine ⟨hidxlt, hidxB, ?_, ?_⟩
                · unfold markSet
                  rw [if_pos rfl]
                · intro i hi hrange
                  have hiamt : i < amt := by
                    rw [hjt] at hrange
                    omega
                  rw [if_neg hidxB, if_pos rfl]
                  dsimp only
                  unfold memcpy
                  rw [if_pos (show 0 ≤ i ∧ i < 0 + amt from
                    ⟨Nat.zero_le i, by omega⟩)]
                  refine congrArg buf ?_
                  rw [hjt]
                  omega
              · rw [if_neg hjt]
                have hjlt : 4096 * j < st.b_write := by omega
                obtain ⟨hc1, hc2, hc3, hc4⟩ := hcontent j hjlt
                have hne : (st.b.inodes i_num).direct j ≠ idx := by
                  intro he
                  rw [he, hidxf] at hc3
                  cases hc3
                refine ⟨hc1, hc2, ?_, ?_⟩
                · unfold markSet
                  rw [if_neg hne]
                  exact hc3
                · intro i hi hrange
                  have hrange' : 4096 * j + i < st.b_write := by omega
                  rw [if_neg hc2, if_neg hne]
                  exact hc4 i hi hrange')
      refine ⟨d2, bm2, heq, hblocks, ?_, hsize2, hcont2⟩
      dsimp only at hvalid2
      rw [setInodeAt_self, setDirect_valid] at hvalid2
      exact hvalid2
    · have hbw : st.b_write = length := by omega
      rw [writeLoop, if_neg hbl]
      refine ⟨st.d, st.bm, ?_, rfl, ?_, ?_, ?_⟩
      · rw [hbw]
      · rw [hdb]
      · rw [hdb]
        rw [← hbw]
        exact hsize (by omega)
      · intro j hj
        rw [hdb]
        obtain ⟨hc1, -, -, hc4⟩ := hcontent j (by omega)
        exact ⟨hc1, fun i hi hr => hc4 i hi (by omega)⟩

/-- Run of the fs_read loop entirely in the direct range at offset 0: if the
direct blocks hold `buf`, the loop returns `length` with the output buffer
matching `buf` below `length`. -/
lemma readLoop_run_direct (d : Disk) (ino : Inode) (buf : Nat → Nat)
    (length : Nat) (junk : Nat → Block)
    (hlen : length ≤ 4096 * 5)
    (hdir : ∀ j, 4096 * j < length →
      ino.direct j < d.blocks ∧
      ∀ i, i < 4096 → 4096 * j + i < length →
        (d.data (ino.direct j)).data i = buf (4096 * j + i)) :
    ∀ fuel st,
      5 - st.d_num + 1 ≤ fuel →
      st.b_read ≤ length →
      (st.b_read < length → st.b_read = 4096 * st.d_num) →
      st.d_num ≤ 5 →
      (∀ i, i < st.b_read → st.out i = buf i) →
      ∃ out2, readLoop d ino length 0 junk fuel st =
        some (Int.ofNat length, out2) ∧
        ∀ i, i < length → out2 i = buf i := by
  intro fuel
  induction fuel with
  | zero =>
    intro st hfuel
    exact absurd hfuel (by omega)
  | succ n ih =>
    intro st hfuel hble hbeq htle hout
    by_cases hbl : st.b_read < length
    · have hbeq' := hbeq hbl
      have ht : st.d_num < 5 := by omega
      have hblk : 4096 * st.d_num < length := by omega
      obtain ⟨hdlt, hdbytes⟩ := hdir st.d_num hblk
      rw [readLoop, if_pos hbl,
        if_pos (show st.d_num < POINTERS_PER_INODE from ht),
        disk_read_succeeds d _ hdlt]
      dsimp only
      simp only [Nat.zero_mod, Nat.sub_zero]
      generalize hamt : (if st.b_read + (BLOCK_SIZE : Nat) > length
        then length - st.b_read else (BLOCK_SIZE : Nat)) = amt
      have hamtp : 0 < amt ∧ st.b_read + amt ≤ length ∧ amt ≤ 4096 ∧
          (st.b_read + amt = length ∨ amt = 4096) := by
        have hBS : (BLOCK_SIZE : Nat) = 4096 := rfl
        rw [hBS] at hamt
        by_cases hc : st.b_read + 4096 > length
        · rw [if_pos hc] at hamt
          omega
        · rw [if_neg hc] at hamt
          omega
      obtain ⟨hamt1, hamt2, hamt3, hamt4⟩ := hamtp
      obtain ⟨out2, heq, hout2⟩ :=
        ih { st with
              b_read := st.b_read + amt
              d_num := st.d_num + 1
              out := memcpy st.out st.b_read
                (shiftInto (junk st.iter).data 0
                  (d.data (ino.direct st.d_num)).data) 0 amt
              iter := st.iter + 1 }
          (by dsimp only; omega)
          (by dsimp only; omega)
          (by dsimp only
              intro hlt
              rcases hamt4 with he | he
              · omega
              · omega)
          (by dsimp only; omega)
          (by dsimp only
              intro i hi
              unfold memcpy
              by_cases hwin : st.b_read ≤ i ∧ i < st.b_read + amt
              · rw [if_pos hwin]
                unfold shiftInto
                rw [if_pos (show 0 ≤ 0 + (i - st.b_read) ∧
                    0 + (i - st.b_read) < 0 + BLOCK_SIZE from
                  ⟨Nat.zero_le _, by
                    show 0 + (i - st.b_read) < 0 + 4096
                    omega⟩)]
                have hb := hdbytes (i - st.b_read) (by omega) (by omega)
                calc (d.data (ino.direct st.d_num)).data
                      (0 + (i - st.b_read) - 0)
                    = (d.data (ino.direct st.d_num)).data (i - st.b_read) := by
                      rw [Nat.zero_add, Nat.sub_zero]
                  _ = buf (4096 * st.d_num + (i - st.b_read)) := hb
                  _ = buf i := congrArg buf (by omega)
              · rw [if_neg hwin]
                exact hout i (by omega))
      refine ⟨out2, heq, hout2⟩
    · have hbw : st.b_read = length := by omega
      rw [readLoop, if_neg hbl]
      refine ⟨st.out, ?_, ?_⟩
      · rw [hbw]
      · intro i hi
        exact hout i (by omega)

/-- C1 amended.  The round-trip that actually holds: on a mounted filesystem
whose bitmap is sound (every free block is in range and is not the inode-table
block of inode `n`), for a valid inode `n`, a buffer `buf`, any length with
`0 < length ≤ BLOCK_SIZE * POINTERS_PER_INODE` (the direct range), offset 0,
and at least POINTERS_PER_INODE free blocks: `write(n, buf, length, 0)`
returns `length`, and a subsequent `read(n, out, length, 0)` returns `length`
with `out[0..length] = buf[0..length]`. -/
theorem c1_roundtrip_amended (fs : FileSystem) (d : Disk) (bm : Nat → Bool)
    (n : Nat) (buf buf0 : Nat → Nat) (length : Nat)
    (jD jI jID junkR : Nat → Block) (fuelW fuelR : Nat)
    (hd : fs.disk = some d) (hbm : fs.free_blocks = some bm)
    (hpos : 0 < length)
    (hlen : length ≤ BLOCK_SIZE * POINTERS_PER_INODE)
    (hB : n / INODES_PER_BLOCK + 1 < d.blocks)
    (hvalid : ((d.data (n / INODES_PER_BLOCK + 1)).inodes
      (n % INODES_PER_BLOCK)).valid = 1)
    (hsafe : ∀ i, bm i = true → i ≠ n / INODES_PER_BLOCK + 1 ∧ i < d.blocks)
    (hfree : POINTERS_PER_INODE ≤ freeCount bm d.blocks)
    (hfw : 6 ≤ fuelW) (hfr : 6 ≤ fuelR) :
    ∃ fs' out,
      fs_write fs n buf length 0 jD jI jID fuelW =
        some (Int.ofNat length, fs') ∧
      fs_read fs' n buf0 length 0 junkR fuelR =
        some (Int.ofNat length, out) ∧
      ∀ i, i < length → out i = buf i := by
  obtain ⟨d2, bm2, heq, hblocks, hvalid2, hsize2, hcont2⟩ :=
    writeLoop_run_direct (n / INODES_PER_BLOCK + 1) (n % INODES_PER_BLOCK)
      buf length jD jI jID hpos hlen fuelW
      ⟨d, bm, d.data (n / INODES_PER_BLOCK + 1), 0, 0, 0, 0⟩
      hfw (Nat.zero_le length) (fun _ => by show (0 : Nat) = 4096 * 0; omega)
      (by show (0 : Nat) ≤ 5; omega) rfl hB hsafe
      hfree (fun h0 => absurd h0 (lt_irrefl 0))
      (fun j hj => absurd hj (by show ¬ (4096 * j < 0); omega))
  have hw : fs_write fs n buf length 0 jD jI jID fuelW =
      some (Int.ofNat length,
        { fs with disk := some d2, free_blocks := some bm2 }) := by
    unfold fs_write
    rw [if_neg (by omega : ¬ length = 0), hd]
    dsimp only
    rw [disk_read_succeeds d _ hB]
    dsimp only
    rw [hbm]
    dsimp only
    rw [if_neg (show ¬ (length + 0 > BLOCK_SIZE * 5 + BLOCK_SIZE * 128) from
      by
        have he : BLOCK_SIZE * 5 + BLOCK_SIZE * 128 = 544768 := rfl
        have he2 : BLOCK_SIZE * POINTERS_PER_INODE = 20480 := rfl
        rw [he]
        rw [he2] at hlen
        omega)]
    simp only [Nat.zero_div]
    rw [if_neg (show ¬ ((0 : Nat) > 5) from by omega)]
    rw [heq]
  have hval1 : ((d2.data (n / INODES_PER_BLOCK + 1)).inodes
      (n % INODES_PER_BLOCK)).valid = 1 := by
    rw [hvalid2]
    exact hvalid
  have hsz1 : ((d2.data (n / INODES_PER_BLOCK + 1)).inodes
      (n % INODES_PER_BLOCK)).size = length := hsize2
  obtain ⟨out2, heqr, hout2⟩ :=
    readLoop_run_direct d2
      ((d2.data (n / INODES_PER_BLOCK + 1)).inodes (n % INODES_PER_BLOCK))
      buf length junkR hlen hcont2 fuelR ⟨0, 0, 0, buf0, 0⟩
      hfr (Nat.zero_le length) (fun _ => by show (0 : Nat) = 4096 * 0; omega)
      (by show (0 : Nat) ≤ 5; omega)
      (fun i hi => absurd hi (by show ¬ (i < 0); omega))
  refine ⟨{ fs with disk := some d2, free_blocks := some bm2 }, out2, hw,
    ?_, hout2⟩
  unfold fs_read
  rw [if_neg (by omega : ¬ length = 0)]
  dsimp only
  rw [disk_read_succeeds d2 _ (by rw [hblocks]; exact hB)]
  dsimp only
  rw [if_neg (show ¬ (((d2.data (n / INODES_PER_BLOCK + 1)).inodes
      (n % INODES_PER_BLOCK)).valid = 0) from by rw [hval1]; omega)]
  rw [if_neg (show ¬ (length + 0 > ((d2.data (n / INODES_PER_BLOCK + 1)).inodes
      (n % INODES_PER_BLOCK)).size) from by rw [hsz1]; omega)]
  simp only [Nat.zero_div]
  rw [if_neg (show ¬ ((0 : Nat) > 5) from by omega)]
  rw [heqr]

/-- Witness for `c1_roundtrip_amended`: an 11-byte round-trip through inode 0
of the mounted 20-block filesystem. -/
theorem c1_roundtrip_amended_witness :
    ∃ fs' out,
      fs_write fs20 0 buf65 11 0 junkZ junkZ junkZ 6 =
        some (Int.ofNat 11, fs') ∧
      fs_read fs' 0 bufZ 11 0 junkZ 6 = some (Int.ofNat 11, out) ∧
      ∀ i, i < 11 → out i = buf65 i :=
  c1_roundtrip_amended fs20 disk20 (fun b => decide (2 < b ∧ b < 20)) 0 buf65
    bufZ 11 junkZ junkZ junkZ junkZ 6 6 rfl rfl (by omega) (by decide)
    (by decide) rfl
    (fun i hi => by
      simp only [decide_eq_true_eq] at hi
      exact ⟨show i ≠ 1 by omega, hi.2⟩)
    (by decide) (by omega) (by omega)

end SimpleFS
